import Mathlib

/-!
# Verification of `func_stats.py`

Shallow embedding of the repository source file `src/func_stats.py`, which
provides two xarray wrappers, `ttest_2samp` and `mannwhitney`, that compute a
per-cell hypothesis-test p-value over a gridded dataset (reducing along a
named sample dimension) and then apply the Benjamini-Hochberg
false-discovery-rate correction of `statsmodels.stats.multitest.multipletests`
across all finite p-values of the grid.

Modelling conventions:
* floating-point sample values and p-values are embedded as `Option ℚ`,
  where `none` stands for NaN (an undefined / non-finite value) and
  `some q` for a finite value, so `np.isfinite` becomes `Option.isSome`;
* the numerical tail probabilities of the external scipy tests (the Student t
  survival function, the Mann-Whitney U null distribution, the Wilcoxon
  signed-rank null distribution) are parameters (`Kernels`): the repository
  delegates them entirely to scipy, and every claim is proved for all kernels
  (adding explicit hypotheses where a claim needs a property of the kernel);
* a `DataArray` is a labelled n-dimensional array: dimension names, extents,
  per-dimension coordinate labels, and a row-major flat data buffer;
* exceptions raised by the Python code are embedded as `Except String`.
-/

namespace FuncStats

/-! ## Generic list helpers (numpy-style indexing) -/

/-- All multi-indices of a given shape, in row-major (C) order. -/
def multiIndices : List ℕ → List (List ℕ)
  | [] => [[]]
  | n :: rest => (List.range n).flatMap (fun i => (multiIndices rest).map (fun t => i :: t))

/-- Row-major flat position of a multi-index inside a shape. -/
def flatIndex (sizes idx : List ℕ) : ℕ :=
  (sizes.zip idx).foldl (fun acc p => acc * p.1 + p.2) 0

/-- Sequence a list of fallible results, propagating the first error
(models an exception escaping from a vectorized loop body). -/
def collectExcept : List (Except String α) → Except String (List α)
  | [] => .ok []
  | .error e :: _ => .error e
  | .ok a :: rest =>
    match collectExcept rest with
    | .error e => .error e
    | .ok as => .ok (a :: as)

/-! ## Rational statistics helpers

The scipy statistics are modelled exactly over `ℚ`; only the final tail
probability (a transcendental function in the real implementation) is kept
as a parameter. -/

/-- Arithmetic mean (`0` for the empty list, which every caller guards). -/
def mean (xs : List ℚ) : ℚ := xs.sum / xs.length

/-- Sample variance with Bessel correction (`ddof = 1`), as used by the
t statistics; callers guard `xs.length ≥ 2`. -/
def svar (xs : List ℚ) : ℚ :=
  (xs.map (fun x => (x - mean xs) ^ 2)).sum / ((xs.length : ℚ) - 1)

/-- External numerical kernels delegated to scipy: each maps the exact
rational test statistic to the two-sided p-value.
`tt_tail df tsq` is the two-sided t tail probability as a function of the
degrees of freedom and the squared t statistic (two-sided probabilities
depend on `t` only through `t ^ 2`); `mw_tail n m u` is the Mann-Whitney
tail given the two sample sizes and the larger U statistic; `wx_tail n w`
is the Wilcoxon signed-rank tail given the number of nonzero differences
and the smaller signed-rank sum. -/
structure Kernels where
  tt_tail : ℕ → ℚ → ℚ
  mw_tail : ℕ → ℕ → ℚ → ℚ
  wx_tail : ℕ → ℚ → ℚ

/-! ## Per-cell tests (models of the scipy calls in `_ttest` / `_mannwhitneyu`)

All four use `nan_policy="omit"`: NaN samples (here `none`) are dropped from
each vector (for the paired tests, a pair is dropped when either member is
NaN).  When too few valid samples remain the scipy axis wrapper yields NaN
for that cell (here `none`) rather than raising. -/

/-- The squared standard error of the difference of means under the pooled
(`equal_var=True`) variance estimate: `sp² · (1/n + 1/m)`. -/
def pooledSe2 (xs ys : List ℚ) : ℚ :=
  ((((xs.length : ℚ) - 1) * svar xs + ((ys.length : ℚ) - 1) * svar ys) /
    ((xs.length : ℚ) + (ys.length : ℚ) - 2)) * (1 / (xs.length : ℚ) + 1 / (ys.length : ℚ))

/-- `scipy.stats.ttest_ind(x, y, axis=-1, nan_policy="omit").pvalue` for one
cell: independent two-sample Student t test with pooled variance
(scipy default `equal_var=True`), two-tailed; `t² = (x̄ − ȳ)² / se²`,
`df = n + m − 2`.  A zero standard error gives p = 0 for distinct means
(infinite t) and NaN for identical constant samples. -/
def ttest_ind_p (K : Kernels) (x y : List (Option ℚ)) : Option ℚ :=
  if (x.filterMap id).length < 2 ∨ (y.filterMap id).length < 2 then none
  else if pooledSe2 (x.filterMap id) (y.filterMap id) = 0 then
    (if mean (x.filterMap id) = mean (y.filterMap id) then none else some 0)
  else
    some (K.tt_tail ((x.filterMap id).length + (y.filterMap id).length - 2)
      ((mean (x.filterMap id) - mean (y.filterMap id)) ^ 2 /
        pooledSe2 (x.filterMap id) (y.filterMap id)))

/-- The per-pair differences of two sample vectors, dropping any pair with a
NaN member (`nan_policy="omit"` of the paired tests). -/
def pairDiffs (x y : List (Option ℚ)) : List ℚ :=
  (x.zip y).filterMap (fun p =>
    match p.1, p.2 with
    | some a, some b => some (a - b)
    | _, _ => none)

/-- `scipy.stats.ttest_rel(x, y, axis=-1, nan_policy="omit").pvalue` for one
cell: paired (related-samples) Student t test on the differences,
two-tailed; `t² = d̄² / (s²_d / n)`, `df = n − 1`.  scipy raises
`ValueError("unequal length arrays")` when the two vectors differ in
length, before computing anything. -/
def ttest_rel_p (K : Kernels) (x y : List (Option ℚ)) : Except String (Option ℚ) :=
  if x.length ≠ y.length then .error "unequal length arrays"
  else if (pairDiffs x y).length < 2 then .ok none
  else if svar (pairDiffs x y) / ((pairDiffs x y).length : ℚ) = 0 then
    (if mean (pairDiffs x y) = 0 then .ok none else .ok (some 0))
  else
    .ok (some (K.tt_tail ((pairDiffs x y).length - 1)
      ((mean (pairDiffs x y)) ^ 2 /
        (svar (pairDiffs x y) / ((pairDiffs x y).length : ℚ)))))

/-- Mann-Whitney pairwise score: 1 when the first sample wins, 1/2 on a tie. -/
def mwScore (a b : ℚ) : ℚ := if b < a then 1 else if a = b then 1 / 2 else 0

/-- The U₁ statistic of `xs` against `ys` (ties counted half). -/
def mwU1 (xs ys : List ℚ) : ℚ :=
  (xs.map (fun a => (ys.map (fun b => mwScore a b)).sum)).sum

/-- `scipy.stats.mannwhitneyu(x, y, axis=-1, nan_policy="omit").pvalue` for
one cell: two-tailed Mann-Whitney U rank-sum test.  The two-sided p-value
is computed from the larger of U₁ and U₂ = n·m − U₁, doubled and clipped
at 1. -/
def mannwhitneyu_p (K : Kernels) (x y : List (Option ℚ)) : Option ℚ :=
  if (x.filterMap id).isEmpty ∨ (y.filterMap id).isEmpty then none
  else
    some (min 1 (2 * K.mw_tail (x.filterMap id).length (y.filterMap id).length
      (max (mwU1 (x.filterMap id) (y.filterMap id))
        (((x.filterMap id).length : ℚ) * ((y.filterMap id).length : ℚ) -
          mwU1 (x.filterMap id) (y.filterMap id)))))

/-- Midrank of `v` within the multiset `l`. -/
def rankOf (l : List ℚ) (v : ℚ) : ℚ :=
  (l.countP (fun w => decide (w < v)) : ℚ) +
    ((l.countP (fun w => decide (w = v)) : ℚ) + 1) / 2

/-- `scipy.stats.wilcoxon(x, y, axis=-1, nan_policy="omit").pvalue` for one
cell: two-tailed Wilcoxon signed-rank test (zero differences dropped, the
default `zero_method`).  scipy raises when the vectors differ in length.
This function is unreachable from the repository module (see
`mannwhitneyInner`): the module never binds the name `scipy`. -/
def wilcoxon_p (K : Kernels) (x y : List (Option ℚ)) : Except String (Option ℚ) :=
  if x.length ≠ y.length then .error "The samples x and y must have the same length."
  else
    let d := ((x.zip y).filterMap (fun p =>
      match p.1, p.2 with
      | some a, some b => some (a - b)
      | _, _ => none)).filter (fun t => decide (t ≠ 0))
    if d.length = 0 then .ok none
    else
      let absd := d.map (fun t => |t|)
      let wplus := ((d.filter (fun t => decide (0 < t))).map (fun t => rankOf absd |t|)).sum
      let wminus := ((d.filter (fun t => decide (t < 0))).map (fun t => rankOf absd |t|)).sum
      .ok (some (min 1 (2 * K.wx_tail d.length (min wplus wminus))))

/-! ## Labelled arrays and the `xr.apply_ufunc` model -/

/-- An xarray `DataArray`: dimension names (in order), per-dimension extents,
per-dimension coordinate labels, and a row-major flat data buffer
(`none` = NaN). -/
structure DataArray where
  dims : List String
  sizes : List ℕ
  coords : List (List ℚ)
  data : List (Option ℚ)
deriving Repr, DecidableEq

/-- Core-dimension extents of an array, in the order the core dimensions are
listed (`input_core_dims` moves them, in that order, to the end). -/
def coreSizesOf (da : DataArray) (core : List String) : List ℕ :=
  core.map (fun d => da.sizes.getD (da.dims.indexOf d) 0)

/-- Index (non-core) dimension names, order preserved. -/
def indexDims (da : DataArray) (core : List String) : List String :=
  da.dims.filter (fun d => !(core.contains d))

/-- Index (non-core) dimension extents, order preserved. -/
def indexSizes (da : DataArray) (core : List String) : List ℕ :=
  ((da.dims.zip da.sizes).filter (fun p => !(core.contains p.1))).map (fun p => p.2)

/-- Index (non-core) coordinate labels, order preserved. -/
def indexCoords (da : DataArray) (core : List String) : List (List ℚ) :=
  ((da.dims.zip da.coords).filter (fun p => !(core.contains p.1))).map (fun p => p.2)

/-- Reassemble a full multi-index from an index-dimension multi-index and a
core-dimension multi-index, walking the array dimensions in order. -/
def assembleIdx : List String → List String → List ℕ → List ℕ → List ℕ
  | [], _, _, _ => []
  | d :: ds, core, ip, cp =>
    if core.contains d then cp.getD (core.indexOf d) 0 :: assembleIdx ds core ip cp
    else ip.headD 0 :: assembleIdx ds core ip.tail cp

/-- The core block of one index cell: the cell data with the core dimensions
moved to the end, flattened row-major in core-dimension order. -/
def extractBlock (da : DataArray) (core : List String) (ip : List ℕ) : List (Option ℚ) :=
  (multiIndices (coreSizesOf da core)).map (fun cp =>
    da.data.getD (flatIndex da.sizes (assembleIdx da.dims core ip cp)) none)

/-- The type of the inner vectorized function handed to `apply_ufunc`: it
receives, for one index cell, each input core block together with its core
shape, and returns the output core shape and block (or raises). -/
def CellFun : Type :=
  List ℕ → List (Option ℚ) → List ℕ → List (Option ℚ) →
    Except String (List ℕ × List (Option ℚ))

/-- Apply the inner function to one index cell's pair of core blocks and
check that the result block is scalar (`output_core_dims=[[]]`), failing
with xarray's dimension error otherwise. -/
def cellApply (f : CellFun) (cs1 : List ℕ) (e1 : List (Option ℚ)) (cs2 : List ℕ)
    (e2 : List (Option ℚ)) : Except String (Option ℚ) :=
  match f cs1 e1 cs2 e2 with
  | .error e => .error e
  | .ok (os, ob) =>
    if os ≠ [] then
      .error "applied function returned data with unexpected number of dimensions"
    else .ok (ob.headD none)

/-- Model of `xr.apply_ufunc(f, da1, da2, input_core_dims=[dim, dim],
output_core_dims=[[]], exclude_dims=set(dim), ...)` followed by
`.compute()`.  The model requires the two inputs to agree on dimension
names and on the extents and coordinates of every non-core dimension
(xarray alignment; core dimensions are excluded from alignment via
`exclude_dims`); it checks that every core dimension is present in both
operands, applies `f` to each index cell and checks that the returned block
is scalar (`output_core_dims=[[]]`), failing with xarray's dimension error
otherwise.  Any error leaves no output array. -/
def apply_ufunc2 (f : CellFun) (da1 da2 : DataArray) (core : List String) :
    Except String DataArray :=
  if ¬ (∀ d ∈ core, d ∈ da1.dims ∧ d ∈ da2.dims) then
    .error "operand is missing core dimensions"
  else if ¬ (da1.dims = da2.dims ∧ indexSizes da1 core = indexSizes da2 core ∧
      indexCoords da1 core = indexCoords da2 core) then
    .error "dimension or coordinate mismatch"
  else
    match collectExcept ((multiIndices (indexSizes da1 core)).map (fun ip =>
      cellApply f (coreSizesOf da1 core) (extractBlock da1 core ip)
        (coreSizesOf da2 core) (extractBlock da2 core ip))) with
    | .error e => .error e
    | .ok cells =>
      .ok ⟨indexDims da1 core, indexSizes da1 core, indexCoords da1 core, cells⟩

/-- Split a flat core block into the 1-D vectors lying along the last core
axis (`axis=-1` of the scipy calls): numpy reshape-style chunking. -/
def chunksLast (cs : List ℕ) (b : List (Option ℚ)) : List (List (Option ℚ)) :=
  let last := cs.getLastD b.length
  (List.range cs.dropLast.prod).map (fun i => (b.drop (i * last)).take last)

/-- Model of the closure `_ttest` inside `ttest_2samp` (src lines 27-31),
lifted to core blocks: the scipy call reduces only `axis=-1`, so the output
block keeps every core axis but the last. -/
def ttestInner (K : Kernels) (paired : Bool) : CellFun := fun cs1 b1 cs2 b2 =>
  let xs := chunksLast cs1 b1
  let ys := chunksLast cs2 b2
  if paired then
    match collectExcept ((xs.zip ys).map (fun p => ttest_rel_p K p.1 p.2)) with
    | .error e => .error e
    | .ok ps => .ok (cs1.dropLast, ps)
  else .ok (cs1.dropLast, (xs.zip ys).map (fun p => ttest_ind_p K p.1 p.2))

/-- The names bound at module level in `src/func_stats.py` (lines 1-5):
`from scipy import stats` binds only `stats`; `import numpy as np`,
`import xarray as xr`, `import statsmodels as sm` bind the aliases; and
`import statsmodels.stats.multitest` binds `statsmodels`.  The bare name
`scipy` is never bound. -/
def moduleBoundNames : List String := ["stats", "np", "xr", "sm", "statsmodels"]

/-- Model of the closure `_mannwhitneyu` inside `mannwhitney` (src lines
76-80).  The paired branch evaluates `scipy.stats.wilcoxon(...)`: resolving
the bare name `scipy` in the module namespace fails (`moduleBoundNames`),
so the branch raises a `NameError` instead of reaching the Wilcoxon test. -/
def mannwhitneyInner (K : Kernels) (paired : Bool) : CellFun := fun cs1 b1 cs2 b2 =>
  let xs := chunksLast cs1 b1
  let ys := chunksLast cs2 b2
  if paired then
    if moduleBoundNames.contains "scipy" then
      match collectExcept ((xs.zip ys).map (fun p => wilcoxon_p K p.1 p.2)) with
      | .error e => .error e
      | .ok ps => .ok (cs1.dropLast, ps)
    else .error "NameError: name scipy is not defined"
  else .ok (cs1.dropLast, (xs.zip ys).map (fun p => mannwhitneyu_p K p.1 p.2))

/-! ## The Benjamini-Hochberg correction step (src lines 45-55 and 94-104)

`statsmodels.stats.multitest.multipletests(values[notnull], alpha, "fdr_bh")`
is modelled from the statsmodels implementation: argsort the p-values,
compare each sorted p-value against its `(rank/m) * alpha` boundary, fill the
rejections down from the largest rejected rank (`reject[:rejectmax] = True`),
and scatter the rejection flags back through the sort indices.  Element `[0]`
of the returned tuple is this boolean rejection vector, which the repository
writes back into the float grid (booleans cast to 0.0 / 1.0). -/

/-- The elementwise Benjamini-Hochberg comparison at sorted position `j`
(0-based): `p_sorted[j] <= ((j+1)/m) * alpha`. -/
def bhAccept (s : List ℚ) (m : ℕ) (α : ℚ) (j : ℕ) : Bool :=
  decide (s.getD j 0 ≤ ((j + 1 : ℚ) / (m : ℚ)) * α)

/-- `np.nonzero` on a boolean vector: the indices holding `true`. -/
def np_nonzero (bs : List Bool) : List ℕ :=
  (List.range bs.length).filter (fun k => bs.getD k false)

/-- The rejection vector on an already-sorted p-value list: elementwise
comparison, then `reject[:rejectmax] = True` for the largest nonzero
index (statsmodels `fdrcorrection` with `method="indep"`). -/
def fdr_reject_sorted (s : List ℚ) (α : ℚ) : List Bool :=
  let n := s.length
  let rej := (List.range n).map (bhAccept s n α)
  match (np_nonzero rej).max? with
  | none => rej
  | some jmax => (List.range n).map (fun k => rej.getD k false || decide (k ≤ jmax))

/-- `reject_[sortind] = reject`: scatter values to positions through an index
vector, starting from an array of length `m`. -/
def scatterByIndex (m : ℕ) (l : List (ℕ × Bool)) : List Bool :=
  l.foldl (fun acc p => acc.set p.1 p.2) (List.replicate m false)

/-- `sm.stats.multitest.multipletests(pvals, alpha, method="fdr_bh")[0]`:
the boolean reject-null vector, aligned with the input order. -/
def multipletests_fdr_bh (pvals : List ℚ) (α : ℚ) : List Bool :=
  let pairs := pvals.enum.mergeSort (fun a b => decide (a.2 ≤ b.2))
  let reject := fdr_reject_sorted (pairs.map Prod.snd) α
  scatterByIndex pvals.length ((pairs.map Prod.fst).zip reject)

/-- Python bool cast into a float buffer: `True` ↦ 1.0, `False` ↦ 0.0. -/
def boolToFloat (b : Bool) : ℚ := if b then 1 else 0

/-- `values[notnull] = p_adjust`: masked assignment, replacing the k-th
finite entry with the k-th boolean (as a float) and leaving NaN entries
in place. -/
def scatterMask : List (Option ℚ) → List Bool → List (Option ℚ)
  | [], _ => []
  | none :: vs, bs => none :: scatterMask vs bs
  | some v :: vs, [] => some v :: scatterMask vs []
  | some _ :: vs, b :: bs => some (boolToFloat b) :: scatterMask vs bs

/-- Src lines 46-55 (= 95-104): ravel the p-value grid, select the finite
entries, run `multipletests(..., method="fdr_bh")`, write component `[0]`
(the rejection decisions) back over the finite entries, and reshape.  On
the flat row-major model, ravel and reshape are the identity. -/
def bh_writeback (vals : List (Option ℚ)) (α : ℚ) : List (Option ℚ) :=
  scatterMask vals (multipletests_fdr_bh (vals.filterMap id) α)

/-! ## The two public operations -/

/-- The `dim` argument: the Python parameter accepts a single dimension name
or a list of names. -/
inductive DimArg
  | str (s : String)
  | list (l : List String)
deriving Repr, DecidableEq

/-- Src line 25 / 74: `dim = [dim] if isinstance(dim, str) else dim`. -/
def normalizeDim : DimArg → List String
  | .str s => [s]
  | .list l => l

/-- The raw p-value grid of `ttest_2samp` (src lines 34-43), before the
correction step. -/
def ttestRaw (K : Kernels) (da1 da2 : DataArray) (paired : Bool) (dimArg : DimArg) :
    Except String DataArray :=
  apply_ufunc2 (ttestInner K paired) da1 da2 (normalizeDim dimArg)

/-- `ttest_2samp(da1, da2, paired, dim, global_alpha)` (src lines 10-57). -/
def ttest_2samp (K : Kernels) (da1 da2 : DataArray) (paired : Bool) (dimArg : DimArg)
    (global_alpha : ℚ) : Except String DataArray :=
  match ttestRaw K da1 da2 paired dimArg with
  | .error e => .error e
  | .ok result => .ok { result with data := bh_writeback result.data global_alpha }

/-- The raw p-value grid of `mannwhitney` (src lines 83-92), before the
correction step. -/
def mannwhitneyRaw (K : Kernels) (da1 da2 : DataArray) (paired : Bool) (dimArg : DimArg) :
    Except String DataArray :=
  apply_ufunc2 (mannwhitneyInner K paired) da1 da2 (normalizeDim dimArg)

/-- `mannwhitney(da1, da2, paired, dim, global_alpha)` (src lines 62-106). -/
def mannwhitney (K : Kernels) (da1 da2 : DataArray) (paired : Bool) (dimArg : DimArg)
    (global_alpha : ℚ) : Except String DataArray :=
  match mannwhitneyRaw K da1 da2 paired dimArg with
  | .error e => .error e
  | .ok result => .ok { result with data := bh_writeback result.data global_alpha }

/-! ## A store model for the frame / allocation claim

The callers own their arrays; a call reads its two argument arrays from the
store, runs the pure operation, and — because the Python code assigns only to
the freshly allocated `result` (never to `da1`/`da2`) — the only store effect
is appending the newly allocated output array. -/

/-- Run `ttest_2samp` against a store of caller-owned arrays: read the
arrays at references `i` and `j`, allocate the output at a fresh
reference. -/
def runTtest (K : Kernels) (st : List DataArray) (i j : ℕ) (paired : Bool)
    (dimArg : DimArg) (α : ℚ) : Except String (List DataArray × ℕ) :=
  match st[i]?, st[j]? with
  | some a, some b =>
    match ttest_2samp K a b paired dimArg α with
    | .error e => .error e
    | .ok out => .ok (st ++ [out], st.length)
  | _, _ => .error "invalid reference"

/-- Run `mannwhitney` against a store of caller-owned arrays. -/
def runMannwhitney (K : Kernels) (st : List DataArray) (i j : ℕ) (paired : Bool)
    (dimArg : DimArg) (α : ℚ) : Except String (List DataArray × ℕ) :=
  match st[i]?, st[j]? with
  | some a, some b =>
    match mannwhitney K a b paired dimArg α with
    | .error e => .error e
    | .ok out => .ok (st ++ [out], st.length)
  | _, _ => .error "invalid reference"

/-! ## The specification's Benjamini-Hochberg procedure (spec §4.1 step 3)

Stated from the spec's words, to be compared with the source-side
`multipletests_fdr_bh`: sort the finite p-values ascending, compare the i-th
(1-based) against `i/m * alpha`, find the largest such i, and mark exactly
the p-values at or below that rank's p-value as significant. -/

/-- The spec's rejection threshold: the p-value at the largest 1-based rank
`i` with `p_(i) ≤ (i/m) * alpha` in the ascending sort (`none` when no rank
qualifies). -/
def bhThreshold (ps : List ℚ) (α : ℚ) : Option ℚ :=
  let m := ps.length
  let sorted := ps.mergeSort (fun a b => decide (a ≤ b))
  match ((List.range m).filter (bhAccept sorted m α)).max? with
  | none => none
  | some jmax => some (sorted.getD jmax 0)

/-- The spec's per-value rejection decision: significant exactly when the
p-value is at or below the threshold rank's p-value. -/
def bhRejectSpecP (ps : List ℚ) (α : ℚ) (p : ℚ) : Bool :=
  match bhThreshold ps α with
  | none => false
  | some t => decide (p ≤ t)

/-- The spec's rejection vector over a family of p-values. -/
def bhRejectSpec (ps : List ℚ) (α : ℚ) : List Bool :=
  ps.map (bhRejectSpecP ps α)

/-! ## Supporting lemmas -/

instance [DecidableEq ε] [DecidableEq α] : DecidableEq (Except ε α) := fun x y =>
  match x, y with
  | .ok a, .ok b =>
    if h : a = b then isTrue (by rw [h]) else isFalse (fun hh => h (Except.ok.inj hh))
  | .error a, .error b =>
    if h : a = b then isTrue (by rw [h]) else isFalse (fun hh => h (Except.error.inj hh))
  | .ok _, .error _ => isFalse (fun hh => Except.noConfusion hh)
  | .error _, .ok _ => isFalse (fun hh => Except.noConfusion hh)

/-- The number of finite (defined) entries strictly before flat position `r`:
the position of cell `r` inside `values[notnull]`. -/
def finiteRank (vals : List (Option ℚ)) (r : ℕ) : ℕ :=
  (vals.take r).countP (fun o => o.isSome)

theorem scatterMask_none : ∀ (vals : List (Option ℚ)) (bs : List Bool) (r : ℕ),
    vals[r]? = some none → (scatterMask vals bs)[r]? = some none := by
  intro vals
  induction vals with
  | nil => intro bs r h; simp at h
  | cons v vs ih =>
    intro bs r h
    cases v with
    | none =>
      cases r with
      | zero => simp [scatterMask]
      | succ r => simp [scatterMask] at h ⊢; exact ih bs r h
    | some w =>
      cases bs with
      | nil =>
        cases r with
        | zero => simp at h
        | succ r => simp [scatterMask] at h ⊢; exact ih [] r h
      | cons b bs =>
        cases r with
        | zero => simp at h
        | succ r => simp [scatterMask] at h ⊢; exact ih bs r h

theorem scatterMask_some : ∀ (vals : List (Option ℚ)) (bs : List Bool) (r : ℕ) (p : ℚ),
    vals[r]? = some (some p) → finiteRank vals r < bs.length →
    (scatterMask vals bs)[r]? =
      some (some (boolToFloat (bs.getD (finiteRank vals r) false))) := by
  intro vals
  induction vals with
  | nil => intro bs r p h _; simp at h
  | cons v vs ih =>
    intro bs r p h hlen
    cases v with
    | none =>
      cases r with
      | zero => simp at h
      | succ r =>
        simp only [List.getElem?_cons_succ] at h
        have hfr : finiteRank (none :: vs) (r + 1) = finiteRank vs r := by
          simp [finiteRank, List.countP_cons]
        rw [hfr] at hlen ⊢
        simpa [scatterMask] using ih bs r p h hlen
    | some w =>
      cases bs with
      | nil =>
        exfalso
        exact Nat.not_lt_zero _ hlen
      | cons b bs =>
        cases r with
        | zero =>
          have hfr : finiteRank (some w :: vs) 0 = 0 := by simp [finiteRank]
          rw [hfr]
          simp [scatterMask]
        | succ r =>
          simp only [List.getElem?_cons_succ] at h
          have hfr : finiteRank (some w :: vs) (r + 1) = finiteRank vs r + 1 := by
            simp [finiteRank, List.countP_cons]
          rw [hfr] at hlen ⊢
          have hlen2 : finiteRank vs r < bs.length := by
            simpa using Nat.lt_of_succ_lt_succ hlen
          simpa [scatterMask] using ih bs r p h hlen2

theorem filterMap_finiteRank : ∀ (vals : List (Option ℚ)) (r : ℕ) (p : ℚ),
    vals[r]? = some (some p) → (vals.filterMap id)[finiteRank vals r]? = some p := by
  intro vals
  induction vals with
  | nil => intro r p h; simp at h
  | cons v vs ih =>
    intro r p h
    cases v with
    | none =>
      cases r with
      | zero => simp at h
      | succ r =>
        simp only [List.getElem?_cons_succ] at h
        have hfr : finiteRank (none :: vs) (r + 1) = finiteRank vs r := by
          simp [finiteRank, List.countP_cons]
        rw [hfr]
        simpa [List.filterMap_cons] using ih r p h
    | some w =>
      cases r with
      | zero =>
        have hw : w = p := by simpa using h
        have hfr : finiteRank (some w :: vs) 0 = 0 := by simp [finiteRank]
        rw [hfr]
        simp [List.filterMap_cons, hw]
      | succ r =>
        simp only [List.getElem?_cons_succ] at h
        have hfr : finiteRank (some w :: vs) (r + 1) = finiteRank vs r + 1 := by
          simp [finiteRank, List.countP_cons]
        rw [hfr]
        simpa [List.filterMap_cons] using ih r p h

theorem finiteRank_lt (vals : List (Option ℚ)) (r : ℕ) (p : ℚ)
    (h : vals[r]? = some (some p)) : finiteRank vals r < (vals.filterMap id).length := by
  have h2 := filterMap_finiteRank vals r p h
  by_contra hge
  rw [List.getElem?_eq_none (Nat.le_of_not_lt hge)] at h2
  exact Option.noConfusion h2

theorem length_filterMap_id (vals : List (Option ℚ)) :
    (vals.filterMap id).length = vals.countP (fun o => o.isSome) := by
  induction vals with
  | nil => rfl
  | cons v vs ih => cases v <;> simp [List.filterMap_cons, ih, List.countP_cons]

theorem length_scatterMask : ∀ (vals : List (Option ℚ)) (bs : List Bool),
    (scatterMask vals bs).length = vals.length := by
  intro vals
  induction vals with
  | nil => intro bs; rfl
  | cons v vs ih =>
    intro bs
    cases v with
    | none => simp [scatterMask, ih]
    | some w =>
      cases bs with
      | nil => simp [scatterMask, ih]
      | cons b bs => simp [scatterMask, ih]

theorem countP_scatterMask : ∀ (vals : List (Option ℚ)) (bs : List Bool),
    bs.length = vals.countP (fun o => o.isSome) →
    (scatterMask vals bs).countP (fun o => decide (o = some (1 : ℚ))) = bs.countP id := by
  intro vals
  induction vals with
  | nil =>
    intro bs hlen
    simp at hlen
    simp [hlen, scatterMask]
  | cons v vs ih =>
    intro bs hlen
    cases v with
    | none =>
      simp only [List.countP_cons] at hlen
      simp only [scatterMask, List.countP_cons]
      simpa using ih bs (by simpa using hlen)
    | some w =>
      simp only [List.countP_cons, Option.isSome_some, if_pos rfl] at hlen
      cases bs with
      | nil => simp at hlen
      | cons b bs =>
        have hlen2 : bs.length = vs.countP (fun o => o.isSome) := by
          simpa using hlen
        simp only [scatterMask, List.countP_cons, ih bs hlen2]
        cases b with
        | true => simp [boolToFloat]
        | false =>
          have : ((0 : ℚ) = 1) = False := by norm_num
          simp [boolToFloat]

theorem length_foldl_set : ∀ (l : List (ℕ × Bool)) (acc : List Bool),
    (l.foldl (fun a p => a.set p.1 p.2) acc).length = acc.length := by
  intro l
  induction l with
  | nil => intro acc; rfl
  | cons x xs ih =>
    intro acc
    simp only [List.foldl_cons, ih, List.length_set]

theorem length_scatterByIndex (m : ℕ) (l : List (ℕ × Bool)) :
    (scatterByIndex m l).length = m := by
  simp [scatterByIndex, length_foldl_set]

theorem length_multipletests (ps : List ℚ) (α : ℚ) :
    (multipletests_fdr_bh ps α).length = ps.length := by
  simp [multipletests_fdr_bh, length_scatterByIndex]

theorem mem_of_getElem?_eq_some {α : Type} {l : List α} {k : ℕ} {a : α}
    (h : l[k]? = some a) : a ∈ l := by
  have hk : k < l.length := by
    by_contra hge
    rw [List.getElem?_eq_none (Nat.le_of_not_lt hge)] at h
    exact Option.noConfusion h
  rw [List.getElem?_eq_getElem hk] at h
  exact Option.some.inj h ▸ List.getElem_mem hk

theorem foldl_set_getElem?_not_mem : ∀ (l : List (ℕ × Bool)) (acc : List Bool) (i : ℕ),
    i ∉ l.map Prod.fst →
    (l.foldl (fun a p => a.set p.1 p.2) acc)[i]? = acc[i]? := by
  intro l
  induction l with
  | nil => intro acc i _; rfl
  | cons x xs ih =>
    intro acc i hmem
    simp only [List.map_cons, List.mem_cons, not_or] at hmem
    simp only [List.foldl_cons]
    rw [ih (acc.set x.1 x.2) i hmem.2, List.getElem?_set_ne (fun h => hmem.1 h.symm)]

theorem foldl_set_getElem?_mem : ∀ (l : List (ℕ × Bool)) (acc : List Bool) (i : ℕ) (b : Bool),
    (l.map Prod.fst).Nodup → (i, b) ∈ l → i < acc.length →
    (l.foldl (fun a p => a.set p.1 p.2) acc)[i]? = some b := by
  intro l
  induction l with
  | nil => intro acc i b _ hmem _; simp at hmem
  | cons x xs ih =>
    intro acc i b hnd hmem hlen
    simp only [List.map_cons, List.nodup_cons] at hnd
    simp only [List.foldl_cons]
    rcases List.mem_cons.mp hmem with heq | hmem2
    · have hx1 : x.1 = i := by rw [← heq]
      have hx2 : x.2 = b := by rw [← heq]
      rw [foldl_set_getElem?_not_mem xs (acc.set x.1 x.2) i (hx1 ▸ hnd.1), hx1, hx2,
        List.getElem?_set_self hlen]
    · exact ih (acc.set x.1 x.2) i b hnd.2 hmem2 (by simpa using hlen)

/-! ### The argsort of the p-values -/

/-- The enumerated p-values argsorted by value (statsmodels
`sortind = np.argsort(pvals)` together with `np.take(pvals, sortind)`). -/
def sortedPairs (ps : List ℚ) : List (ℕ × ℚ) :=
  ps.enum.mergeSort (fun a b => decide (a.2 ≤ b.2))

theorem multipletests_fdr_bh_def (ps : List ℚ) (α : ℚ) :
    multipletests_fdr_bh ps α =
      scatterByIndex ps.length
        (((sortedPairs ps).map Prod.fst).zip
          (fdr_reject_sorted ((sortedPairs ps).map Prod.snd) α)) := rfl

theorem sortedPairs_perm (ps : List ℚ) : (sortedPairs ps).Perm ps.enum :=
  List.mergeSort_perm _ _

theorem length_sortedPairs (ps : List ℚ) : (sortedPairs ps).length = ps.length := by
  rw [(sortedPairs_perm ps).length_eq, List.enum_length]

theorem sortedPairs_pairwise (ps : List ℚ) :
    List.Pairwise (fun a b : ℕ × ℚ => a.2 ≤ b.2) (sortedPairs ps) := by
  have h := @List.sorted_mergeSort (ℕ × ℚ) (fun a b => decide (a.2 ≤ b.2))
    (fun a b c hab hbc => by
      simp only [decide_eq_true_eq] at hab hbc ⊢
      exact le_trans hab hbc)
    (fun a b => by
      simp only [Bool.or_eq_true, decide_eq_true_eq]
      exact le_total a.2 b.2)
    ps.enum
  exact h.imp (fun hab => of_decide_eq_true hab)

theorem sortedPairs_snd_sorted (ps : List ℚ) :
    List.Sorted (· ≤ ·) ((sortedPairs ps).map Prod.snd) :=
  List.pairwise_map.mpr (sortedPairs_pairwise ps)

theorem sortedPairs_snd_perm (ps : List ℚ) : ((sortedPairs ps).map Prod.snd).Perm ps := by
  have h := (sortedPairs_perm ps).map Prod.snd
  rwa [List.enum_map_snd] at h

/-- The argsorted value list coincides with the plain ascending sort used in
the specification's description of the procedure. -/
theorem sortedPairs_snd_eq_mergeSort (ps : List ℚ) :
    (sortedPairs ps).map Prod.snd = ps.mergeSort (fun a b => decide (a ≤ b)) := by
  apply @List.eq_of_perm_of_sorted ℚ (fun a b : ℚ => a ≤ b) _
  · exact (sortedPairs_snd_perm ps).trans (List.mergeSort_perm ps _).symm
  · exact sortedPairs_snd_sorted ps
  · have h := @List.sorted_mergeSort ℚ (fun a b => decide (a ≤ b))
      (fun a b c hab hbc => by
        simp only [decide_eq_true_eq] at hab hbc ⊢
        exact le_trans hab hbc)
      (fun a b => by
        simp only [Bool.or_eq_true, decide_eq_true_eq]
        exact le_total a b)
      ps
    exact h.imp (fun hab => of_decide_eq_true hab)

theorem sortedPairs_fst_perm (ps : List ℚ) :
    ((sortedPairs ps).map Prod.fst).Perm (List.range ps.length) := by
  have h := (sortedPairs_perm ps).map Prod.fst
  rwa [List.enum_map_fst] at h

theorem sortedPairs_fst_nodup (ps : List ℚ) : ((sortedPairs ps).map Prod.fst).Nodup :=
  (sortedPairs_fst_perm ps).nodup_iff.mpr (List.nodup_range ps.length)

theorem sortedPairs_mem (ps : List ℚ) (i : ℕ) (hi : i < ps.length) :
    ∃ k, ∃ hk : k < (sortedPairs ps).length, (sortedPairs ps)[k] = (i, ps[i]) := by
  have hmem : (i, ps[i]) ∈ ps.enum :=
    List.mem_enum_iff_getElem?.mpr (List.getElem?_eq_getElem hi)
  exact List.getElem_of_mem ((sortedPairs_perm ps).mem_iff.mpr hmem)

/-! ### The rejection vector on the sorted list -/

/-- The value-level rejection decision on an (already sorted) family. -/
def bhDecisionSorted (s : List ℚ) (α : ℚ) (p : ℚ) : Bool :=
  match ((List.range s.length).filter (bhAccept s s.length α)).max? with
  | none => false
  | some jmax => decide (p ≤ s.getD jmax 0)

theorem np_nonzero_map_range (n : ℕ) (f : ℕ → Bool) :
    np_nonzero ((List.range n).map f) = (List.range n).filter f := by
  unfold np_nonzero
  rw [List.length_map, List.length_range]
  apply List.filter_congr
  intro x hx
  have hxn : x < n := List.mem_range.mp hx
  rw [List.getD_eq_getElem?_getD, List.getElem?_map, List.getElem?_range hxn]
  rfl

theorem fdr_reject_sorted_def (s : List ℚ) (α : ℚ) :
    fdr_reject_sorted s α =
      match (np_nonzero ((List.range s.length).map (bhAccept s s.length α))).max? with
      | none => (List.range s.length).map (bhAccept s s.length α)
      | some jmax => (List.range s.length).map
          (fun k => ((List.range s.length).map (bhAccept s s.length α)).getD k false ||
            decide (k ≤ jmax)) := rfl

theorem length_fdr_reject_sorted (s : List ℚ) (α : ℚ) :
    (fdr_reject_sorted s α).length = s.length := by
  rw [fdr_reject_sorted_def]
  cases ((np_nonzero ((List.range s.length).map (bhAccept s s.length α))).max?) <;> simp

theorem max?_filter_range_spec {n : ℕ} {f : ℕ → Bool} {j : ℕ}
    (h : ((List.range n).filter f).max? = some j) :
    (j < n ∧ f j = true) ∧ ∀ b, b < n → f b = true → b ≤ j := by
  have hm := (List.max?_eq_some_iff (fun a => Nat.le_refl a)
    (fun a b => max_choice a b) (fun a b c => max_le_iff)).mp h
  constructor
  · have := List.mem_filter.mp hm.1
    exact ⟨List.mem_range.mp this.1, this.2⟩
  · intro b hb hf
    exact hm.2 b (List.mem_filter.mpr ⟨List.mem_range.mpr hb, hf⟩)

theorem sorted_getD_mono {s : List ℚ} (hs : List.Sorted (· ≤ ·) s) {a b : ℕ}
    (hab : a ≤ b) (hb : b < s.length) : s.getD a 0 ≤ s.getD b 0 := by
  rcases Nat.lt_or_ge a b with hlt | hge
  · have ha : a < s.length := lt_trans hlt hb
    rw [List.getD_eq_getElem _ _ ha, List.getD_eq_getElem _ _ hb]
    exact List.pairwise_iff_getElem.mp hs a b ha hb hlt
  · have hab2 : a = b := Nat.le_antisymm hab hge
    rw [hab2]

/-- On a sorted family, the statsmodels rejection vector (elementwise
comparison followed by the `reject[:rejectmax] = True` fill) agrees, entry
by entry, with the value-level decision `p ≤ p_(jmax)`. -/
theorem fdr_reject_sorted_getElem (s : List ℚ) (α : ℚ) (hα : 0 ≤ α)
    (hs : List.Sorted (· ≤ ·) s) (k : ℕ) (hk : k < s.length) :
    (fdr_reject_sorted s α)[k]? = some (bhDecisionSorted s α (s.getD k 0)) := by
  unfold bhDecisionSorted
  rw [fdr_reject_sorted_def, np_nonzero_map_range]
  have hrej : ∀ j, j < s.length →
      ((List.range s.length).map (bhAccept s s.length α))[j]? =
        some (bhAccept s s.length α j) := by
    intro j hj
    rw [List.getElem?_map, List.getElem?_range hj]
    rfl
  cases hmax : ((List.range s.length).filter (bhAccept s s.length α)).max? with
  | none =>
    have hempty : (List.range s.length).filter (bhAccept s s.length α) = [] :=
      List.max?_eq_none_iff.mp hmax
    have hfalse : bhAccept s s.length α k = false := by
      cases hf : bhAccept s s.length α k with
      | false => rfl
      | true =>
        exfalso
        have : k ∈ (List.range s.length).filter (bhAccept s s.length α) :=
          List.mem_filter.mpr ⟨List.mem_range.mpr hk, hf⟩
        rw [hempty] at this
        exact List.not_mem_nil k this
    rw [hrej k hk, hfalse]
  | some jmax =>
    obtain ⟨⟨hjn, hjacc⟩, hjmaxmax⟩ := max?_filter_range_spec hmax
    have hrw : ((List.range s.length).map fun j =>
        ((List.range s.length).map (bhAccept s s.length α)).getD j false ||
          decide (j ≤ jmax))[k]? =
        some (((List.range s.length).map (bhAccept s s.length α)).getD k false ||
          decide (k ≤ jmax)) := by
      rw [List.getElem?_map, List.getElem?_range hk]
      rfl
    rw [hrw, List.getD_eq_getElem?_getD, hrej k hk]
    show some (bhAccept s s.length α k || decide (k ≤ jmax)) =
      some (decide (s.getD k 0 ≤ s.getD jmax 0))
    have hthr : s.getD jmax 0 ≤ ((jmax + 1 : ℚ) / (s.length : ℚ)) * α :=
      of_decide_eq_true hjacc
    rcases Nat.lt_or_ge jmax k with hgt | hge
    · have hknot : bhAccept s s.length α k = false := by
        cases hf : bhAccept s s.length α k with
        | false => rfl
        | true => exact absurd (hjmaxmax k hk hf) (Nat.not_le_of_lt hgt)
      have hnle : ¬ (s.getD k 0 ≤ s.getD jmax 0) := by
        intro hle2
        have hge2 := sorted_getD_mono hs (Nat.le_of_lt hgt) hk
        have heq : s.getD k 0 = s.getD jmax 0 := le_antisymm hle2 hge2
        have hnpos : (0 : ℚ) < (s.length : ℚ) := by
          exact_mod_cast lt_of_le_of_lt (Nat.zero_le k) hk
        have hfrac : ((jmax + 1 : ℚ) / (s.length : ℚ)) * α ≤
            ((k + 1 : ℚ) / (s.length : ℚ)) * α := by
          apply mul_le_mul_of_nonneg_right _ hα
          rw [div_le_div_iff_of_pos_right hnpos]
          exact_mod_cast Nat.succ_le_succ (Nat.le_of_lt hgt)
        have : bhAccept s s.length α k = true := by
          apply decide_eq_true
          calc s.getD k 0 = s.getD jmax 0 := heq
            _ ≤ ((jmax + 1 : ℚ) / (s.length : ℚ)) * α := hthr
            _ ≤ ((k + 1 : ℚ) / (s.length : ℚ)) * α := hfrac
        rw [this] at hknot
        exact Bool.noConfusion hknot
      have hd1 : decide (k ≤ jmax) = false := decide_eq_false (Nat.not_le_of_lt hgt)
      have hd2 : decide (s.getD k 0 ≤ s.getD jmax 0) = false := decide_eq_false hnle
      rw [hknot, hd1, hd2, Bool.or_false]
    · have hdec : decide (s.getD k 0 ≤ s.getD jmax 0) = true :=
        decide_eq_true (sorted_getD_mono hs hge hjn)
      have hk2 : decide (k ≤ jmax) = true := decide_eq_true hge
      rw [hk2, hdec, Bool.or_true]

theorem bhThreshold_def (ps : List ℚ) (α : ℚ) :
    bhThreshold ps α =
      match ((List.range ps.length).filter
          (bhAccept (ps.mergeSort (fun a b => decide (a ≤ b))) ps.length α)).max? with
      | none => none
      | some jmax => some ((ps.mergeSort (fun a b => decide (a ≤ b))).getD jmax 0) := rfl

theorem bhRejectSpecP_eq_decisionSorted (ps : List ℚ) (α : ℚ) (p : ℚ) :
    bhRejectSpecP ps α p = bhDecisionSorted ((sortedPairs ps).map Prod.snd) α p := by
  have hs := sortedPairs_snd_eq_mergeSort ps
  unfold bhRejectSpecP bhDecisionSorted
  rw [bhThreshold_def, hs, List.length_mergeSort]
  cases (((List.range ps.length).filter
      (bhAccept (ps.mergeSort (fun a b => decide (a ≤ b))) ps.length α)).max?) <;> rfl

theorem multipletests_fdr_bh_getElem (ps : List ℚ) (α : ℚ) (hα : 0 ≤ α)
    (i : ℕ) (hi : i < ps.length) :
    (multipletests_fdr_bh ps α)[i]? = some (bhRejectSpecP ps α (ps.getD i 0)) := by
  obtain ⟨k, hk, hPk⟩ := sortedPairs_mem ps i hi
  set s := (sortedPairs ps).map Prod.snd with hsdef
  have hslen : s.length = ps.length := by rw [hsdef, List.length_map, length_sortedPairs]
  have hks : k < s.length := by rw [hsdef, List.length_map]; exact hk
  have hsk : s.getD k 0 = ps.getD i 0 := by
    rw [List.getD_eq_getElem _ _ hks, List.getD_eq_getElem _ _ hi]
    simp only [hsdef, List.getElem_map]
    rw [hPk]
  have hfk : ((sortedPairs ps).map Prod.fst)[k]? = some i := by
    rw [List.getElem?_eq_getElem (by rw [List.length_map]; exact hk)]
    simp only [List.getElem_map]
    rw [hPk]
  have hsorted : List.Sorted (· ≤ ·) s := by rw [hsdef]; exact sortedPairs_snd_sorted ps
  have hreject := fdr_reject_sorted_getElem s α hα hsorted k hks
  have hzip : (((sortedPairs ps).map Prod.fst).zip (fdr_reject_sorted s α))[k]? =
      some (i, bhDecisionSorted s α (s.getD k 0)) :=
    List.getElem?_zip_eq_some.mpr ⟨hfk, hreject⟩
  have hmem := mem_of_getElem?_eq_some hzip
  have hlenz : ((sortedPairs ps).map Prod.fst).length ≤ (fdr_reject_sorted s α).length := by
    rw [List.length_map, length_sortedPairs, length_fdr_reject_sorted, hslen]
  have hnd : ((((sortedPairs ps).map Prod.fst).zip
      (fdr_reject_sorted s α)).map Prod.fst).Nodup := by
    rw [List.map_fst_zip _ _ hlenz]
    exact sortedPairs_fst_nodup ps
  rw [multipletests_fdr_bh_def]
  unfold scatterByIndex
  rw [foldl_set_getElem?_mem _ _ i _ hnd hmem (by rw [List.length_replicate]; exact hi)]
  rw [hsk, bhRejectSpecP_eq_decisionSorted]

/-- The rejection decisions computed by the statsmodels model and written
back by the repository agree, entry by entry, with the specification's
description of the Benjamini-Hochberg step-up procedure. -/
theorem multipletests_eq_bhRejectSpec (ps : List ℚ) (α : ℚ) (hα : 0 ≤ α) :
    multipletests_fdr_bh ps α = bhRejectSpec ps α := by
  apply List.ext_getElem
  · rw [length_multipletests]
    unfold bhRejectSpec
    rw [List.length_map]
  · intro n h1 h2
    have hn : n < ps.length := by rw [length_multipletests] at h1; exact h1
    have hl := multipletests_fdr_bh_getElem ps α hα n hn
    rw [List.getElem?_eq_getElem h1] at hl
    have h3 : (bhRejectSpec ps α)[n] = bhRejectSpecP ps α (ps.getD n 0) := by
      unfold bhRejectSpec
      simp only [List.getElem_map]
      rw [List.getD_eq_getElem _ _ hn]
    rw [h3]
    exact Option.some.inj hl

/-! ### The write-back step on the raveled grid -/

theorem bh_writeback_some (vals : List (Option ℚ)) (α : ℚ) (r : ℕ) (p : ℚ)
    (h : vals[r]? = some (some p)) :
    (bh_writeback vals α)[r]? = some (some (boolToFloat
      ((multipletests_fdr_bh (vals.filterMap id) α).getD (finiteRank vals r) false))) := by
  unfold bh_writeback
  exact scatterMask_some vals _ r p h
    (by rw [length_multipletests]; exact finiteRank_lt vals r p h)

theorem bh_writeback_none (vals : List (Option ℚ)) (α : ℚ) (r : ℕ)
    (h : vals[r]? = some none) : (bh_writeback vals α)[r]? = some none :=
  scatterMask_none vals _ r h

theorem bhThreshold_le_alpha (ps : List ℚ) (α : ℚ) (hα : 0 ≤ α) (t : ℚ)
    (h : bhThreshold ps α = some t) : t ≤ α := by
  rw [bhThreshold_def] at h
  cases hmax : ((List.range ps.length).filter
      (bhAccept (ps.mergeSort (fun a b => decide (a ≤ b))) ps.length α)).max? with
  | none => rw [hmax] at h; exact Option.noConfusion h
  | some jmax =>
    rw [hmax] at h
    obtain ⟨⟨hjn, hjacc⟩, _⟩ := max?_filter_range_spec hmax
    have ht : t = (ps.mergeSort (fun a b => decide (a ≤ b))).getD jmax 0 :=
      (Option.some.inj h).symm
    have hacc : (ps.mergeSort (fun a b => decide (a ≤ b))).getD jmax 0 ≤
        ((jmax + 1 : ℚ) / (ps.length : ℚ)) * α := of_decide_eq_true hjacc
    have hlpos : (0 : ℚ) < (ps.length : ℚ) := by
      exact_mod_cast lt_of_le_of_lt (Nat.zero_le jmax) hjn
    have hfrac : ((jmax + 1 : ℚ) / (ps.length : ℚ)) ≤ 1 := by
      rw [div_le_one hlpos]
      exact_mod_cast Nat.succ_le_of_lt hjn
    rw [ht]
    calc (ps.mergeSort (fun a b => decide (a ≤ b))).getD jmax 0
        ≤ ((jmax + 1 : ℚ) / (ps.length : ℚ)) * α := hacc
      _ ≤ α := mul_le_of_le_one_left hα hfrac

theorem bhRejectSpecP_imp_le (ps : List ℚ) (α : ℚ) (hα : 0 ≤ α) (p : ℚ)
    (h : bhRejectSpecP ps α p = true) : p ≤ α := by
  unfold bhRejectSpecP at h
  cases ht : bhThreshold ps α with
  | none => rw [ht] at h; exact Bool.noConfusion h
  | some t =>
    rw [ht] at h
    exact le_trans (of_decide_eq_true h) (bhThreshold_le_alpha ps α hα t ht)

/-! ### Symmetry of the per-cell tests under swapping the two samples -/

theorem pooledSe2_comm (xs ys : List ℚ) : pooledSe2 xs ys = pooledSe2 ys xs := by
  unfold pooledSe2
  ring

theorem ttest_ind_p_symm (K : Kernels) (x y : List (Option ℚ)) :
    ttest_ind_p K x y = ttest_ind_p K y x := by
  unfold ttest_ind_p
  by_cases h1 : (x.filterMap id).length < 2 ∨ (y.filterMap id).length < 2
  · rw [if_pos h1, if_pos (Or.symm h1)]
  · rw [if_neg h1, if_neg (fun h => h1 (Or.symm h))]
    rw [pooledSe2_comm (y.filterMap id) (x.filterMap id),
      Nat.add_comm (y.filterMap id).length (x.filterMap id).length]
    have hsq : (mean (y.filterMap id) - mean (x.filterMap id)) ^ 2 =
        (mean (x.filterMap id) - mean (y.filterMap id)) ^ 2 := by ring
    rw [hsq]
    by_cases h2 : pooledSe2 (x.filterMap id) (y.filterMap id) = 0
    · rw [if_pos h2, if_pos h2]
      by_cases h3 : mean (x.filterMap id) = mean (y.filterMap id)
      · rw [if_pos h3, if_pos h3.symm]
      · rw [if_neg h3, if_neg (fun h => h3 h.symm)]
    · rw [if_neg h2, if_neg h2]

theorem pairDiffs_swap (x y : List (Option ℚ)) :
    pairDiffs y x = (pairDiffs x y).map (fun t => -t) := by
  unfold pairDiffs
  rw [← List.zip_swap x y, List.filterMap_map, List.map_filterMap]
  apply List.filterMap_congr
  intro p _
  rcases p with ⟨u, v⟩
  cases u <;> cases v <;> simp [Prod.swap, neg_sub]

theorem mean_map_neg (l : List ℚ) : mean (l.map (fun t => -t)) = -(mean l) := by
  unfold mean
  rw [List.length_map, ← List.sum_neg, neg_div]

theorem svar_map_neg (l : List ℚ) : svar (l.map (fun t => -t)) = svar l := by
  unfold svar
  rw [List.length_map, mean_map_neg, List.map_map]
  have : ((fun x => (x - -mean l) ^ 2) ∘ fun t => -t) = fun t => (t - mean l) ^ 2 := by
    funext t
    simp only [Function.comp]
    ring
  rw [this]

theorem ttest_rel_p_symm (K : Kernels) (x y : List (Option ℚ)) :
    ttest_rel_p K x y = ttest_rel_p K y x := by
  unfold ttest_rel_p
  by_cases h0 : x.length ≠ y.length
  · have hyx : y.length ≠ x.length := fun h => h0 h.symm
    rw [if_pos h0, if_pos hyx]
  · have hyx : ¬ (y.length ≠ x.length) := fun h => h0 (fun hh => h hh.symm)
    rw [if_neg h0, if_neg hyx]
    rw [pairDiffs_swap x y, List.length_map, mean_map_neg, svar_map_neg]
    by_cases h1 : (pairDiffs x y).length < 2
    · rw [if_pos h1, if_pos h1]
    · rw [if_neg h1, if_neg h1]
      by_cases h2 : svar (pairDiffs x y) / ((pairDiffs x y).length : ℚ) = 0
      · rw [if_pos h2, if_pos h2]
        by_cases h3 : mean (pairDiffs x y) = 0
        · rw [if_pos h3, if_pos (neg_eq_zero.mpr h3)]
        · rw [if_neg h3, if_neg (fun h => h3 (neg_eq_zero.mp h))]
      · rw [if_neg h2, if_neg h2]
        have hm : (-mean (pairDiffs x y)) ^ 2 = (mean (pairDiffs x y)) ^ 2 := by ring
        rw [hm]

theorem mwScore_compl (a b : ℚ) : mwScore a b + mwScore b a = 1 := by
  unfold mwScore
  rcases lt_trichotomy a b with h | h | h
  · rw [if_neg (lt_asymm h), if_neg (ne_of_lt h), if_pos h]
    norm_num
  · rw [if_neg (h ▸ lt_irrefl a), if_pos h, if_neg (h ▸ lt_irrefl a), if_pos h.symm]
    norm_num
  · rw [if_pos h, if_neg (lt_asymm h), if_neg (ne_of_lt h)]
    norm_num

theorem sum_map_one (l : List ℚ) : (l.map (fun _ => (1 : ℚ))).sum = l.length := by
  induction l with
  | nil => simp
  | cons a t ih =>
    simp only [List.map_cons, List.sum_cons, ih, List.length_cons]
    push_cast
    ring

theorem mwU1_nil_left (ys : List ℚ) : mwU1 [] ys = 0 := by simp [mwU1]

theorem mwU1_nil_right (xs : List ℚ) : mwU1 xs [] = 0 := by simp [mwU1]

theorem mwU1_add (xs ys : List ℚ) :
    mwU1 xs ys + mwU1 ys xs = (xs.length : ℚ) * (ys.length : ℚ) := by
  induction xs with
  | nil => simp [mwU1_nil_left, mwU1_nil_right]
  | cons a t ih =>
    have h1 : mwU1 (a :: t) ys = (ys.map (fun b => mwScore a b)).sum + mwU1 t ys := by
      simp [mwU1]
    have h2 : mwU1 ys (a :: t) = (ys.map (fun b => mwScore b a)).sum + mwU1 ys t := by
      unfold mwU1
      rw [← List.sum_map_add]
      apply congrArg
      apply List.map_congr_left
      intro b _
      simp
    have h3 : (ys.map (fun b => mwScore a b)).sum + (ys.map (fun b => mwScore b a)).sum =
        (ys.length : ℚ) := by
      rw [← List.sum_map_add]
      have : (ys.map (fun b => mwScore a b + mwScore b a)) = ys.map (fun _ => (1 : ℚ)) :=
        List.map_congr_left (fun b _ => mwScore_compl a b)
      rw [this, sum_map_one]
    rw [h1, h2, List.length_cons]
    push_cast
    nlinarith [ih, h3]

theorem mannwhitneyu_p_symm (K : Kernels)
    (hmw : ∀ n m u, K.mw_tail n m u = K.mw_tail m n u) (x y : List (Option ℚ)) :
    mannwhitneyu_p K x y = mannwhitneyu_p K y x := by
  unfold mannwhitneyu_p
  by_cases h1 : (x.filterMap id).isEmpty ∨ (y.filterMap id).isEmpty
  · rw [if_pos h1, if_pos (Or.symm h1)]
  · rw [if_neg h1, if_neg (fun h => h1 (Or.symm h))]
    have hU : mwU1 (y.filterMap id) (x.filterMap id) =
        ((x.filterMap id).length : ℚ) * ((y.filterMap id).length : ℚ) -
          mwU1 (x.filterMap id) (y.filterMap id) := by
      have h := mwU1_add (x.filterMap id) (y.filterMap id)
      linarith
    rw [hU, hmw (y.filterMap id).length (x.filterMap id).length]
    have harg : max (((x.filterMap id).length : ℚ) * ((y.filterMap id).length : ℚ) -
          mwU1 (x.filterMap id) (y.filterMap id))
        (((y.filterMap id).length : ℚ) * ((x.filterMap id).length : ℚ) -
          (((x.filterMap id).length : ℚ) * ((y.filterMap id).length : ℚ) -
            mwU1 (x.filterMap id) (y.filterMap id))) =
        max (mwU1 (x.filterMap id) (y.filterMap id))
          (((x.filterMap id).length : ℚ) * ((y.filterMap id).length : ℚ) -
            mwU1 (x.filterMap id) (y.filterMap id)) := by
      have h2 : ((y.filterMap id).length : ℚ) * ((x.filterMap id).length : ℚ) -
          (((x.filterMap id).length : ℚ) * ((y.filterMap id).length : ℚ) -
            mwU1 (x.filterMap id) (y.filterMap id)) =
          mwU1 (x.filterMap id) (y.filterMap id) := by ring
      rw [h2, max_comm]
    rw [harg]

theorem map_zip_swap {α γ : Type} (F G : α → α → γ) (hFG : ∀ u v, F u v = G v u)
    (l1 l2 : List α) :
    (l1.zip l2).map (fun p => F p.1 p.2) = (l2.zip l1).map (fun p => G p.1 p.2) := by
  rw [← List.zip_swap l1 l2, List.map_map]
  apply List.map_congr_left
  intro p _
  exact hFG p.1 p.2

theorem cellApply_of_error (f : CellFun) (cs1 : List ℕ) (e1 : List (Option ℚ))
    (cs2 : List ℕ) (e2 : List (Option ℚ)) (e : String)
    (hf : f cs1 e1 cs2 e2 = .error e) :
    cellApply f cs1 e1 cs2 e2 = .error e := by
  unfold cellApply
  rw [hf]

theorem cellApply_of_ok (f : CellFun) (cs1 : List ℕ) (e1 : List (Option ℚ))
    (cs2 : List ℕ) (e2 : List (Option ℚ)) (os : List ℕ) (ps : List (Option ℚ))
    (hf : f cs1 e1 cs2 e2 = .ok (os, ps)) :
    cellApply f cs1 e1 cs2 e2 =
      if os ≠ [] then
        .error "applied function returned data with unexpected number of dimensions"
      else .ok (ps.headD none) := by
  unfold cellApply
  rw [hf]

theorem ttestInner_true_eq (K : Kernels) (cs1 : List ℕ) (e1 : List (Option ℚ))
    (cs2 : List ℕ) (e2 : List (Option ℚ)) :
    ttestInner K true cs1 e1 cs2 e2 =
      match collectExcept (((chunksLast cs1 e1).zip (chunksLast cs2 e2)).map
          (fun p => ttest_rel_p K p.1 p.2)) with
      | .error e => .error e
      | .ok ps => .ok (cs1.dropLast, ps) := rfl

theorem ttestInner_false_eq (K : Kernels) (cs1 : List ℕ) (e1 : List (Option ℚ))
    (cs2 : List ℕ) (e2 : List (Option ℚ)) :
    ttestInner K false cs1 e1 cs2 e2 =
      .ok (cs1.dropLast, ((chunksLast cs1 e1).zip (chunksLast cs2 e2)).map
        (fun p => ttest_ind_p K p.1 p.2)) := rfl

theorem mannwhitneyInner_true_eq (K : Kernels) (cs1 : List ℕ) (e1 : List (Option ℚ))
    (cs2 : List ℕ) (e2 : List (Option ℚ)) :
    mannwhitneyInner K true cs1 e1 cs2 e2 =
      .error "NameError: name scipy is not defined" := rfl

theorem mannwhitneyInner_false_eq (K : Kernels) (cs1 : List ℕ) (e1 : List (Option ℚ))
    (cs2 : List ℕ) (e2 : List (Option ℚ)) :
    mannwhitneyInner K false cs1 e1 cs2 e2 =
      .ok (cs1.dropLast, ((chunksLast cs1 e1).zip (chunksLast cs2 e2)).map
        (fun p => mannwhitneyu_p K p.1 p.2)) := rfl

theorem cellApply_ttestInner_symm (K : Kernels) (paired : Bool) (cs1 : List ℕ)
    (e1 : List (Option ℚ)) (cs2 : List ℕ) (e2 : List (Option ℚ))
    (hlen : cs1.length = cs2.length) :
    cellApply (ttestInner K paired) cs1 e1 cs2 e2 =
      cellApply (ttestInner K paired) cs2 e2 cs1 e1 := by
  have hdrop : cs1.dropLast = [] ↔ cs2.dropLast = [] := by
    rw [← List.length_eq_zero, ← List.length_eq_zero, List.length_dropLast,
      List.length_dropLast, hlen]
  cases paired with
  | true =>
    have hlist : ((chunksLast cs1 e1).zip (chunksLast cs2 e2)).map
        (fun p => ttest_rel_p K p.1 p.2) =
        ((chunksLast cs2 e2).zip (chunksLast cs1 e1)).map (fun p => ttest_rel_p K p.1 p.2) :=
      map_zip_swap _ _ (fun u v => ttest_rel_p_symm K u v) _ _
    cases hc : collectExcept (((chunksLast cs2 e2).zip (chunksLast cs1 e1)).map
        (fun p => ttest_rel_p K p.1 p.2)) with
    | error e =>
      have hcl : collectExcept (((chunksLast cs1 e1).zip (chunksLast cs2 e2)).map
          (fun p => ttest_rel_p K p.1 p.2)) = .error e := by rw [hlist, hc]
      have hL : ttestInner K true cs1 e1 cs2 e2 = .error e := by
        rw [ttestInner_true_eq, hcl]
      have hR : ttestInner K true cs2 e2 cs1 e1 = .error e := by
        rw [ttestInner_true_eq, hc]
      rw [cellApply_of_error _ _ _ _ _ _ hL, cellApply_of_error _ _ _ _ _ _ hR]
    | ok ps =>
      have hcl : collectExcept (((chunksLast cs1 e1).zip (chunksLast cs2 e2)).map
          (fun p => ttest_rel_p K p.1 p.2)) = .ok ps := by rw [hlist, hc]
      have hL : ttestInner K true cs1 e1 cs2 e2 = .ok (cs1.dropLast, ps) := by
        rw [ttestInner_true_eq, hcl]
      have hR : ttestInner K true cs2 e2 cs1 e1 = .ok (cs2.dropLast, ps) := by
        rw [ttestInner_true_eq, hc]
      rw [cellApply_of_ok _ _ _ _ _ _ _ hL, cellApply_of_ok _ _ _ _ _ _ _ hR]
      by_cases hne : cs1.dropLast = []
      · have hn1 : ¬ (cs1.dropLast ≠ []) := fun h => h hne
        have hn2 : ¬ (cs2.dropLast ≠ []) := fun h => h (hdrop.mp hne)
        rw [if_neg hn1, if_neg hn2]
      · have hp2 : cs2.dropLast ≠ [] := fun h => hne (hdrop.mpr h)
        rw [if_pos hne, if_pos hp2]
  | false =>
    have hlist : ((chunksLast cs1 e1).zip (chunksLast cs2 e2)).map
        (fun p => ttest_ind_p K p.1 p.2) =
        ((chunksLast cs2 e2).zip (chunksLast cs1 e1)).map (fun p => ttest_ind_p K p.1 p.2) :=
      map_zip_swap _ _ (fun u v => ttest_ind_p_symm K u v) _ _
    rw [cellApply_of_ok _ _ _ _ _ _ _ (ttestInner_false_eq K cs1 e1 cs2 e2),
      cellApply_of_ok _ _ _ _ _ _ _ (ttestInner_false_eq K cs2 e2 cs1 e1), hlist]
    by_cases hne : cs1.dropLast = []
    · have hn1 : ¬ (cs1.dropLast ≠ []) := fun h => h hne
      have hn2 : ¬ (cs2.dropLast ≠ []) := fun h => h (hdrop.mp hne)
      rw [if_neg hn1, if_neg hn2]
    · have hp2 : cs2.dropLast ≠ [] := fun h => hne (hdrop.mpr h)
      rw [if_pos hne, if_pos hp2]

theorem cellApply_mannwhitneyInner_symm (K : Kernels)
    (hmw : ∀ n m u, K.mw_tail n m u = K.mw_tail m n u) (paired : Bool) (cs1 : List ℕ)
    (e1 : List (Option ℚ)) (cs2 : List ℕ) (e2 : List (Option ℚ))
    (hlen : cs1.length = cs2.length) :
    cellApply (mannwhitneyInner K paired) cs1 e1 cs2 e2 =
      cellApply (mannwhitneyInner K paired) cs2 e2 cs1 e1 := by
  have hdrop : cs1.dropLast = [] ↔ cs2.dropLast = [] := by
    rw [← List.length_eq_zero, ← List.length_eq_zero, List.length_dropLast,
      List.length_dropLast, hlen]
  cases paired with
  | true =>
    rw [cellApply_of_error _ _ _ _ _ _ (mannwhitneyInner_true_eq K cs1 e1 cs2 e2),
      cellApply_of_error _ _ _ _ _ _ (mannwhitneyInner_true_eq K cs2 e2 cs1 e1)]
  | false =>
    have hlist : ((chunksLast cs1 e1).zip (chunksLast cs2 e2)).map
        (fun p => mannwhitneyu_p K p.1 p.2) =
        ((chunksLast cs2 e2).zip (chunksLast cs1 e1)).map
          (fun p => mannwhitneyu_p K p.1 p.2) :=
      map_zip_swap _ _ (fun u v => mannwhitneyu_p_symm K hmw u v) _ _
    rw [cellApply_of_ok _ _ _ _ _ _ _ (mannwhitneyInner_false_eq K cs1 e1 cs2 e2),
      cellApply_of_ok _ _ _ _ _ _ _ (mannwhitneyInner_false_eq K cs2 e2 cs1 e1), hlist]
    by_cases hne : cs1.dropLast = []
    · have hn1 : ¬ (cs1.dropLast ≠ []) := fun h => h hne
      have hn2 : ¬ (cs2.dropLast ≠ []) := fun h => h (hdrop.mp hne)
      rw [if_neg hn1, if_neg hn2]
    · have hp2 : cs2.dropLast ≠ [] := fun h => hne (hdrop.mpr h)
      rw [if_pos hne, if_pos hp2]

theorem length_coreSizesOf (da : DataArray) (core : List String) :
    (coreSizesOf da core).length = core.length := by
  unfold coreSizesOf
  exact List.length_map core _

theorem apply_ufunc2_symm (f : CellFun)
    (hf : ∀ cs1 e1 cs2 e2, cs1.length = cs2.length →
      cellApply f cs1 e1 cs2 e2 = cellApply f cs2 e2 cs1 e1)
    (da1 da2 : DataArray) (core : List String) :
    apply_ufunc2 f da1 da2 core = apply_ufunc2 f da2 da1 core := by
  unfold apply_ufunc2
  by_cases h1 : ∀ d ∈ core, d ∈ da1.dims ∧ d ∈ da2.dims
  · have h1s : ∀ d ∈ core, d ∈ da2.dims ∧ d ∈ da1.dims :=
      fun d hd => (h1 d hd).symm
    rw [if_neg (not_not_intro h1), if_neg (not_not_intro h1s)]
    by_cases h2 : da1.dims = da2.dims ∧ indexSizes da1 core = indexSizes da2 core ∧
        indexCoords da1 core = indexCoords da2 core
    · obtain ⟨hd, hs, hc⟩ := h2
      have h2s : da2.dims = da1.dims ∧ indexSizes da2 core = indexSizes da1 core ∧
          indexCoords da2 core = indexCoords da1 core := ⟨hd.symm, hs.symm, hc.symm⟩
      rw [if_neg (not_not_intro ⟨hd, hs, hc⟩), if_neg (not_not_intro h2s)]
      have hid : indexDims da1 core = indexDims da2 core := by
        unfold indexDims
        rw [hd]
      have hmap : (multiIndices (indexSizes da1 core)).map (fun ip =>
          cellApply f (coreSizesOf da1 core) (extractBlock da1 core ip)
            (coreSizesOf da2 core) (extractBlock da2 core ip)) =
          (multiIndices (indexSizes da2 core)).map (fun ip =>
            cellApply f (coreSizesOf da2 core) (extractBlock da2 core ip)
              (coreSizesOf da1 core) (extractBlock da1 core ip)) := by
        rw [← hs]
        apply List.map_congr_left
        intro ip _
        exact hf _ _ _ _ (by rw [length_coreSizesOf, length_coreSizesOf])
      rw [hmap, hid, hs, hc]
    · have h2s : ¬ (da2.dims = da1.dims ∧ indexSizes da2 core = indexSizes da1 core ∧
          indexCoords da2 core = indexCoords da1 core) :=
        fun hcon => h2 ⟨hcon.1.symm, hcon.2.1.symm, hcon.2.2.symm⟩
      rw [if_pos h2, if_pos h2s]
  · have h1s : ¬ ∀ d ∈ core, d ∈ da2.dims ∧ d ∈ da1.dims :=
      fun hcon => h1 (fun d hd => (hcon d hd).symm)
    rw [if_pos h1, if_pos h1s]

theorem ttestRaw_symm (K : Kernels) (a b : DataArray) (paired : Bool) (dimArg : DimArg) :
    ttestRaw K a b paired dimArg = ttestRaw K b a paired dimArg :=
  apply_ufunc2_symm _
    (fun cs1 e1 cs2 e2 h => cellApply_ttestInner_symm K paired cs1 e1 cs2 e2 h) a b _

theorem mannwhitneyRaw_symm (K : Kernels)
    (hmw : ∀ n m u, K.mw_tail n m u = K.mw_tail m n u) (a b : DataArray) (paired : Bool)
    (dimArg : DimArg) :
    mannwhitneyRaw K a b paired dimArg = mannwhitneyRaw K b a paired dimArg :=
  apply_ufunc2_symm _
    (fun cs1 e1 cs2 e2 h => cellApply_mannwhitneyInner_symm K hmw paired cs1 e1 cs2 e2 h)
    a b _

/-! ### Decomposition of successful calls -/

theorem apply_ufunc2_ok_spec (f : CellFun) (da1 da2 : DataArray) (core : List String)
    (out : DataArray) (h : apply_ufunc2 f da1 da2 core = .ok out) :
    (∀ d ∈ core, d ∈ da1.dims ∧ d ∈ da2.dims) ∧
    (da1.dims = da2.dims ∧ indexSizes da1 core = indexSizes da2 core ∧
      indexCoords da1 core = indexCoords da2 core) ∧
    out.dims = indexDims da1 core ∧ out.sizes = indexSizes da1 core ∧
    out.coords = indexCoords da1 core := by
  unfold apply_ufunc2 at h
  by_cases h1 : ∀ d ∈ core, d ∈ da1.dims ∧ d ∈ da2.dims
  · rw [if_neg (not_not_intro h1)] at h
    by_cases h2 : da1.dims = da2.dims ∧ indexSizes da1 core = indexSizes da2 core ∧
        indexCoords da1 core = indexCoords da2 core
    · rw [if_neg (not_not_intro h2)] at h
      refine ⟨h1, h2, ?_⟩
      cases hc : collectExcept ((multiIndices (indexSizes da1 core)).map (fun ip =>
          cellApply f (coreSizesOf da1 core) (extractBlock da1 core ip)
            (coreSizesOf da2 core) (extractBlock da2 core ip))) with
      | error e =>
        rw [hc] at h
        exact absurd h (by simp)
      | ok cells =>
        rw [hc] at h
        have hout := Except.ok.inj h
        rw [← hout]
        exact ⟨rfl, rfl, rfl⟩
    · rw [if_pos h2] at h
      exact absurd h (by simp)
  · rw [if_pos h1] at h
    exact absurd h (by simp)

theorem ttest_2samp_ok (K : Kernels) (a b : DataArray) (paired : Bool) (dimArg : DimArg)
    (α : ℚ) (out : DataArray) (h : ttest_2samp K a b paired dimArg α = .ok out) :
    ∃ g, ttestRaw K a b paired dimArg = .ok g ∧
      out = { g with data := bh_writeback g.data α } := by
  unfold ttest_2samp at h
  cases hr : ttestRaw K a b paired dimArg with
  | error e =>
    rw [hr] at h
    exact absurd h (by simp)
  | ok g =>
    rw [hr] at h
    exact ⟨g, rfl, (Except.ok.inj h).symm⟩

theorem mannwhitney_ok (K : Kernels) (a b : DataArray) (paired : Bool) (dimArg : DimArg)
    (α : ℚ) (out : DataArray) (h : mannwhitney K a b paired dimArg α = .ok out) :
    ∃ g, mannwhitneyRaw K a b paired dimArg = .ok g ∧
      out = { g with data := bh_writeback g.data α } := by
  unfold mannwhitney at h
  cases hr : mannwhitneyRaw K a b paired dimArg with
  | error e =>
    rw [hr] at h
    exact absurd h (by simp)
  | ok g =>
    rw [hr] at h
    exact ⟨g, rfl, (Except.ok.inj h).symm⟩

/-- Whenever either operation succeeds on a raw grid `g`, the returned array
is exactly `g` with the correction written over its data buffer. -/
theorem op_ok_writeback (K : Kernels) (a b : DataArray) (paired : Bool) (dimArg : DimArg)
    (α : ℚ) (g out : DataArray)
    (hop : (ttestRaw K a b paired dimArg = .ok g ∧
        ttest_2samp K a b paired dimArg α = .ok out) ∨
      (mannwhitneyRaw K a b paired dimArg = .ok g ∧
        mannwhitney K a b paired dimArg α = .ok out)) :
    out = { g with data := bh_writeback g.data α } := by
  rcases hop with ⟨h1, h2⟩ | ⟨h1, h2⟩
  · unfold ttest_2samp at h2
    rw [h1] at h2
    exact (Except.ok.inj h2).symm
  · unfold mannwhitney at h2
    rw [h1] at h2
    exact (Except.ok.inj h2).symm

/-! ### The single-sample-dimension filters -/

theorem indexDims_single (da : DataArray) (s : String) :
    indexDims da [s] = da.dims.filter (fun d => d ≠ s) := by
  unfold indexDims
  apply List.filter_congr
  intro d _
  by_cases hds : d = s
  · subst hds
    simp
  · simp [hds]

theorem indexSizes_single (da : DataArray) (s : String) :
    indexSizes da [s] = ((da.dims.zip da.sizes).filter (fun p => p.1 ≠ s)).map
      (fun p => p.2) := by
  unfold indexSizes
  congr 1
  apply List.filter_congr
  intro p _
  by_cases hds : p.1 = s
  · simp [hds]
  · simp [hds]

theorem indexCoords_single (da : DataArray) (s : String) :
    indexCoords da [s] = ((da.dims.zip da.coords).filter (fun p => p.1 ≠ s)).map
      (fun p => p.2) := by
  unfold indexCoords
  congr 1
  apply List.filter_congr
  intro p _
  by_cases hds : p.1 = s
  · simp [hds]
  · simp [hds]

/-! ### Concrete instances used by witnesses -/

/-- A concrete kernel instantiation (all tail probabilities ≡ 1/2); the
claims hold for every kernel, and witnesses evaluate the pipeline at this
one. -/
def constKernels : Kernels := ⟨fun _ _ => 1 / 2, fun _ _ _ => 1 / 2, fun _ _ => 1 / 2⟩

/-- A 2x3 grid (index dimension `x`, sample dimension `time`). -/
def gridA : DataArray :=
  ⟨["x", "time"], [2, 3], [[0, 1], [10, 11, 12]],
    [some 1, some 2, some 3, some 0, some 0, some 1]⟩

/-- A second 2x3 grid on the same coordinates. -/
def gridB : DataArray :=
  ⟨["x", "time"], [2, 3], [[0, 1], [10, 11, 12]],
    [some 2, some 1, some 3, some 5, some 6, some 7]⟩

/-- A 2x2 grid: sample dimension shorter than `gridA`, for the paired
length-mismatch example. -/
def gridC : DataArray :=
  ⟨["x", "time"], [2, 2], [[0, 1], [10, 11]], [some 2, some 1, some 3, some 5]⟩

/-- Like `gridA` but with only one valid sample in the first cell, so that
cell's p-value is undefined. -/
def gridN : DataArray :=
  ⟨["x", "time"], [2, 3], [[0, 1], [10, 11, 12]],
    [some 1, none, none, some 0, some 2, some 1]⟩

/-- A 3-dimensional grid for the list-valued `dim` counterexample. -/
def grid3 : DataArray :=
  ⟨["lat", "x", "time"], [2, 2, 3], [[0, 1], [0, 1], [10, 11, 12]],
    (List.range 12).map (fun i => some (i : ℚ))⟩

/-- The raw p-value grid of `gridA` against `gridB` under `constKernels`. -/
def rawAB : DataArray := ⟨["x"], [2], [[0, 1]], [some (1 / 2), some (1 / 2)]⟩

/-- The corrected output grid of `gridA` against `gridB` under
`constKernels` at alpha = 1/20. -/
def outAB : DataArray := ⟨["x"], [2], [[0, 1]], [some 0, some 0]⟩

/-- The raw p-value grid of `gridN` against `gridB` under `constKernels`. -/
def rawNB : DataArray := ⟨["x"], [2], [[0, 1]], [none, some (1 / 2)]⟩

/-- The corrected output grid of `gridN` against `gridB`. -/
def outNB : DataArray := ⟨["x"], [2], [[0, 1]], [none, some 0]⟩

/-- The list-level count bound behind the correction-monotonicity claim:
after the write-back, at most as many cells hold 1.0 as there were finite
raw p-values at or below alpha. -/
theorem countP_bh_writeback_le (vals : List (Option ℚ)) (α : ℚ) (hα : 0 ≤ α) :
    (bh_writeback vals α).countP (fun o => decide (o = some (1 : ℚ))) ≤
      vals.countP (fun o => match o with
        | some p => decide (p ≤ α)
        | none => false) := by
  unfold bh_writeback
  rw [countP_scatterMask vals _ (by rw [length_multipletests, length_filterMap_id])]
  rw [multipletests_eq_bhRejectSpec _ _ hα]
  unfold bhRejectSpec
  rw [List.countP_map]
  have hstep : List.countP (id ∘ bhRejectSpecP (vals.filterMap id) α)
      (vals.filterMap id) ≤
      List.countP (fun p => decide (p ≤ α)) (vals.filterMap id) := by
    apply List.countP_mono_left
    intro p _ hp
    simp only [Function.comp, id] at hp
    exact decide_eq_true (bhRejectSpecP_imp_le (vals.filterMap id) α hα p hp)
  refine le_trans hstep ?_
  rw [List.countP_filterMap]
  have hfun : (fun o => (Option.map (fun p => decide (p ≤ α)) (id o)).getD false) =
      (fun o : Option ℚ => match o with
        | some p => decide (p ≤ α)
        | none => false) := by
    funext o
    cases o <;> rfl
  rw [hfun]

/-! ## The claims -/

/-- C1: for every valid pair of input grids, in each output cell whose raw
p-value was defined, both `ttest_2samp` and `mannwhitney` write back the
Benjamini-Hochberg rejection decision — the boolean "reject the null at
`global_alpha` after correction", cast to the float 1.0 / 0.0 — and not
the corrected p-value.  `g` is the raw p-value grid of the invocation and
`out` the returned grid; the written value is `boolToFloat` of component
`[0]` of the `multipletests` result (the reject vector), taken at the
cell's position among the finite entries. -/
theorem C1_boolean_rejection_decision_written_back
    (K : Kernels) (a b : DataArray) (paired : Bool) (dimArg : DimArg) (α : ℚ)
    (g out : DataArray) (r : ℕ) (p : ℚ)
    (hop : (ttestRaw K a b paired dimArg = .ok g ∧
        ttest_2samp K a b paired dimArg α = .ok out) ∨
      (mannwhitneyRaw K a b paired dimArg = .ok g ∧
        mannwhitney K a b paired dimArg α = .ok out))
    (hp : g.data[r]? = some (some p)) :
    out.data[r]? = some (some (boolToFloat
      ((multipletests_fdr_bh (g.data.filterMap id) α).getD (finiteRank g.data r) false))) := by
  rw [op_ok_writeback K a b paired dimArg α g out hop]
  exact bh_writeback_some g.data α r p hp

theorem C1_witness :
    (ttestRaw constKernels gridA gridB false (.str "time") = .ok rawAB ∧
      ttest_2samp constKernels gridA gridB false (.str "time") (1 / 20) = .ok outAB) ∧
    rawAB.data[0]? = some (some (1 / 2)) ∧
    outAB.data[0]? = some (some (boolToFloat
      ((multipletests_fdr_bh (rawAB.data.filterMap id) (1 / 20)).getD
        (finiteRank rawAB.data 0) false))) :=
  ⟨⟨by with_unfolding_all rfl, by with_unfolding_all rfl⟩, by with_unfolding_all rfl,
    C1_boolean_rejection_decision_written_back constKernels gridA gridB false (.str "time")
      (1 / 20) rawAB outAB 0 (1 / 2)
      (Or.inl ⟨by with_unfolding_all rfl, by with_unfolding_all rfl⟩)
      (by with_unfolding_all rfl)⟩

/-- C2: the spec's table says `rank_test` with paired=true computes the
two-tailed Wilcoxon signed-rank p-value.  The code (src line 78) refers to
`scipy.stats.wilcoxon`, but the module only runs `from scipy import stats`
(line 1) and never binds the bare name `scipy` (`moduleBoundNames`), so
every paired call of `mannwhitney` raises `NameError` instead of computing
the test: the code contradicts the spec and its own comment (src line 60),
which names the Wilcoxon test for dependent samples. -/
theorem C2_paired_mannwhitney_raises_NameError :
    moduleBoundNames.contains "scipy" = false ∧
    mannwhitney constKernels gridA gridB true (.str "time") (1 / 20) =
      .error "NameError: name scipy is not defined" :=
  ⟨rfl, by with_unfolding_all rfl⟩

/-- C3: the correction applied by both operations is the Benjamini-Hochberg
step-up procedure exactly as the spec describes it (sort the finite
p-values ascending, find the largest 1-based rank i with
`p_(i) ≤ i/m * alpha`, mark exactly the p-values at or below that rank's
p-value), applied as a single family across all defined cells of the
invocation (`g.data.filterMap id` ranges over the whole raveled grid). -/
theorem C3_correction_is_bh_stepup
    (K : Kernels) (a b : DataArray) (paired : Bool) (dimArg : DimArg) (α : ℚ)
    (g out : DataArray) (r : ℕ) (p : ℚ) (hα : 0 ≤ α)
    (hop : (ttestRaw K a b paired dimArg = .ok g ∧
        ttest_2samp K a b paired dimArg α = .ok out) ∨
      (mannwhitneyRaw K a b paired dimArg = .ok g ∧
        mannwhitney K a b paired dimArg α = .ok out))
    (hp : g.data[r]? = some (some p)) :
    multipletests_fdr_bh (g.data.filterMap id) α = bhRejectSpec (g.data.filterMap id) α ∧
    out.data[r]? = some (some (boolToFloat (bhRejectSpecP (g.data.filterMap id) α p))) := by
  refine ⟨multipletests_eq_bhRejectSpec _ α hα, ?_⟩
  rw [op_ok_writeback K a b paired dimArg α g out hop]
  have hget : (multipletests_fdr_bh (g.data.filterMap id) α).getD (finiteRank g.data r)
      false = bhRejectSpecP (g.data.filterMap id) α p := by
    rw [multipletests_eq_bhRejectSpec _ α hα]
    unfold bhRejectSpec
    rw [List.getD_eq_getElem?_getD, List.getElem?_map, filterMap_finiteRank g.data r p hp]
    rfl
  rw [show ({ g with data := bh_writeback g.data α } : DataArray).data =
      bh_writeback g.data α from rfl, bh_writeback_some g.data α r p hp, hget]

theorem C3_witness :
    (0 : ℚ) ≤ 1 / 20 ∧
    (multipletests_fdr_bh (rawAB.data.filterMap id) (1 / 20) =
        bhRejectSpec (rawAB.data.filterMap id) (1 / 20) ∧
      outAB.data[0]? = some (some (boolToFloat
        (bhRejectSpecP (rawAB.data.filterMap id) (1 / 20) (1 / 2))))) :=
  ⟨by norm_num,
    C3_correction_is_bh_stepup constKernels gridA gridB false (.str "time") (1 / 20)
      rawAB outAB 0 (1 / 2) (by norm_num)
      (Or.inl ⟨by with_unfolding_all rfl, by with_unfolding_all rfl⟩)
      (by with_unfolding_all rfl)⟩

/-- C4: in every invocation of either operation, a cell whose raw p-value is
undefined (NaN) stays undefined in the returned grid, is never marked
significant, and is excluded from the family handed to the correction:
the list `values[notnull]` has exactly one entry per defined cell, so the
count `m` used by the correction counts only defined cells. -/
theorem C4_undefined_cells_excluded
    (K : Kernels) (a b : DataArray) (paired : Bool) (dimArg : DimArg) (α : ℚ)
    (g out : DataArray) (r : ℕ)
    (hop : (ttestRaw K a b paired dimArg = .ok g ∧
        ttest_2samp K a b paired dimArg α = .ok out) ∨
      (mannwhitneyRaw K a b paired dimArg = .ok g ∧
        mannwhitney K a b paired dimArg α = .ok out))
    (hp : g.data[r]? = some none) :
    out.data[r]? = some none ∧ out.data[r]? ≠ some (some 1) ∧
    (g.data.filterMap id).length = g.data.countP (fun o => o.isSome) := by
  have h1 : out.data[r]? = some none := by
    rw [op_ok_writeback K a b paired dimArg α g out hop]
    exact bh_writeback_none g.data α r hp
  refine ⟨h1, ?_, length_filterMap_id g.data⟩
  rw [h1]
  simp

theorem C4_witness :
    (ttestRaw constKernels gridN gridB false (.str "time") = .ok rawNB ∧
      ttest_2samp constKernels gridN gridB false (.str "time") (1 / 20) = .ok outNB) ∧
    rawNB.data[0]? = some none ∧
    (outNB.data[0]? = some none ∧ outNB.data[0]? ≠ some (some 1) ∧
      (rawNB.data.filterMap id).length = rawNB.data.countP (fun o => o.isSome)) :=
  ⟨⟨by with_unfolding_all rfl, by with_unfolding_all rfl⟩, by with_unfolding_all rfl,
    C4_undefined_cells_excluded constKernels gridN gridB false (.str "time") (1 / 20)
      rawNB outNB 0
      (Or.inl ⟨by with_unfolding_all rfl, by with_unfolding_all rfl⟩)
      (by with_unfolding_all rfl)⟩

/-- C5: when either operation succeeds with the sample dimension given as a
string `s`, the returned grid's dimensions are exactly the input's
dimensions with `s` removed, in order, its per-dimension extents are the
input extents of those dimensions, and its coordinates equal those of both
inputs on those dimensions, in the same order. -/
theorem C5_output_shape_and_coords
    (K : Kernels) (a b : DataArray) (paired : Bool) (s : String) (α : ℚ)
    (out : DataArray)
    (hop : ttest_2samp K a b paired (.str s) α = .ok out ∨
      mannwhitney K a b paired (.str s) α = .ok out) :
    out.dims = a.dims.filter (fun d => d ≠ s) ∧
    out.sizes = ((a.dims.zip a.sizes).filter (fun p => p.1 ≠ s)).map (fun p => p.2) ∧
    out.coords = ((a.dims.zip a.coords).filter (fun p => p.1 ≠ s)).map (fun p => p.2) ∧
    out.dims = b.dims.filter (fun d => d ≠ s) ∧
    out.coords = ((b.dims.zip b.coords).filter (fun p => p.1 ≠ s)).map (fun p => p.2) := by
  have hmain : ∃ g : DataArray, out.dims = g.dims ∧ out.sizes = g.sizes ∧
      out.coords = g.coords ∧
      g.dims = indexDims a [s] ∧ g.sizes = indexSizes a [s] ∧ g.coords = indexCoords a [s] ∧
      a.dims = b.dims ∧ indexCoords a [s] = indexCoords b [s] := by
    rcases hop with h | h
    · obtain ⟨g, hg, hout⟩ := ttest_2samp_ok K a b paired (.str s) α out h
      obtain ⟨-, ⟨hd, -, hcc⟩, hdims, hsizes, hcoords⟩ :=
        apply_ufunc2_ok_spec _ a b [s] g hg
      exact ⟨g, by rw [hout], by rw [hout], by rw [hout],
        hdims, hsizes, hcoords, hd, hcc⟩
    · obtain ⟨g, hg, hout⟩ := mannwhitney_ok K a b paired (.str s) α out h
      obtain ⟨-, ⟨hd, -, hcc⟩, hdims, hsizes, hcoords⟩ :=
        apply_ufunc2_ok_spec _ a b [s] g hg
      exact ⟨g, by rw [hout], by rw [hout], by rw [hout],
        hdims, hsizes, hcoords, hd, hcc⟩
  obtain ⟨g, hod, hos, hoc, hdims, hsizes, hcoords, hd, hcc⟩ := hmain
  refine ⟨?_, ?_, ?_, ?_, ?_⟩
  · rw [hod, hdims, indexDims_single]
  · rw [hos, hsizes, indexSizes_single]
  · rw [hoc, hcoords, indexCoords_single]
  · rw [hod, hdims, indexDims_single, hd]
  · rw [hoc, hcoords, hcc, indexCoords_single]

theorem C5_witness :
    (ttest_2samp constKernels gridA gridB false (.str "time") (1 / 20) = .ok outAB) ∧
    (outAB.dims = gridA.dims.filter (fun d => d ≠ "time") ∧
      outAB.sizes = ((gridA.dims.zip gridA.sizes).filter
        (fun p => p.1 ≠ "time")).map (fun p => p.2) ∧
      outAB.coords = ((gridA.dims.zip gridA.coords).filter
        (fun p => p.1 ≠ "time")).map (fun p => p.2) ∧
      outAB.dims = gridB.dims.filter (fun d => d ≠ "time") ∧
      outAB.coords = ((gridB.dims.zip gridB.coords).filter
        (fun p => p.1 ≠ "time")).map (fun p => p.2)) :=
  ⟨by with_unfolding_all rfl,
    C5_output_shape_and_coords constKernels gridA gridB false "time" (1 / 20) outAB
      (Or.inl (by with_unfolding_all rfl))⟩

/-- C6: in every invocation of either operation (with a nonnegative alpha,
as a significance level is), the number of output cells marked significant
(holding 1.0) is at most the number of raw-p-value cells at or below
`global_alpha`. -/
theorem C6_significant_count_le
    (K : Kernels) (a b : DataArray) (paired : Bool) (dimArg : DimArg) (α : ℚ)
    (g out : DataArray) (hα : 0 ≤ α)
    (hop : (ttestRaw K a b paired dimArg = .ok g ∧
        ttest_2samp K a b paired dimArg α = .ok out) ∨
      (mannwhitneyRaw K a b paired dimArg = .ok g ∧
        mannwhitney K a b paired dimArg α = .ok out)) :
    out.data.countP (fun o => decide (o = some (1 : ℚ))) ≤
      g.data.countP (fun o => match o with
        | some p => decide (p ≤ α)
        | none => false) := by
  rw [op_ok_writeback K a b paired dimArg α g out hop]
  show (bh_writeback g.data α).countP _ ≤ _
  exact countP_bh_writeback_le g.data α hα

theorem C6_witness :
    (0 : ℚ) ≤ 1 / 20 ∧
    outAB.data.countP (fun o => decide (o = some (1 : ℚ))) ≤
      rawAB.data.countP (fun o => match o with
        | some p => decide (p ≤ (1 / 20 : ℚ))
        | none => false) :=
  ⟨by norm_num,
    C6_significant_count_le constKernels gridA gridB false (.str "time") (1 / 20)
      rawAB outAB (by norm_num)
      (Or.inl ⟨by with_unfolding_all rfl, by with_unfolding_all rfl⟩)⟩

/-- C7: a paired call on grids whose sample-dimension lengths differ (3 vs
2) produces no output grid for either operation.  For `ttest_2samp` the
failure is scipy's length-precondition error; for `mannwhitney` the call
fails even earlier with the `NameError` of the unbound `scipy` reference
(src line 78) instead of a length precondition check. -/
theorem C7_paired_length_mismatch_failure :
    ttest_2samp constKernels gridA gridC true (.str "time") (1 / 20) =
      .error "unequal length arrays" ∧
    mannwhitney constKernels gridA gridC true (.str "time") (1 / 20) =
      .error "NameError: name scipy is not defined" :=
  ⟨by with_unfolding_all rfl, by with_unfolding_all rfl⟩

/-- C8: swapping the two grid arguments leaves every cell of the raw
p-value result unchanged — in fact the whole raw result, errors included,
is unchanged — for both operations, in both paired and unpaired mode.  The
model is exact over ℚ, so "within floating-point tolerance" is strengthened
to equality; the only kernel fact used is that scipy's Mann-Whitney tail
depends symmetrically on the two sample sizes (true of the U null
distribution), stated as the hypothesis `hmw`. -/
theorem C8_swap_symmetry (K : Kernels)
    (hmw : ∀ n m u, K.mw_tail n m u = K.mw_tail m n u)
    (a b : DataArray) (paired : Bool) (dimArg : DimArg) :
    ttestRaw K a b paired dimArg = ttestRaw K b a paired dimArg ∧
    mannwhitneyRaw K a b paired dimArg = mannwhitneyRaw K b a paired dimArg :=
  ⟨ttestRaw_symm K a b paired dimArg, mannwhitneyRaw_symm K hmw a b paired dimArg⟩

theorem C8_witness :
    ttestRaw constKernels gridA gridB false (.str "time") =
      ttestRaw constKernels gridB gridA false (.str "time") ∧
    mannwhitneyRaw constKernels gridA gridB false (.str "time") =
      mannwhitneyRaw constKernels gridB gridA false (.str "time") :=
  C8_swap_symmetry constKernels (fun _ _ _ => rfl) gridA gridB false (.str "time")

theorem append_frame (st : List DataArray) (out : DataArray) (k : ℕ)
    (hk : k < st.length) : (st ++ [out])[k]? = st[k]? := by
  rw [List.getElem?_append, if_pos hk]

theorem runTtest_ok (K : Kernels) (st : List DataArray) (i j : ℕ) (paired : Bool)
    (dimArg : DimArg) (α : ℚ) (st2 : List DataArray) (r : ℕ)
    (h : runTtest K st i j paired dimArg α = .ok (st2, r)) :
    ∃ out, st2 = st ++ [out] ∧ r = st.length := by
  unfold runTtest at h
  cases hi : st[i]? with
  | none =>
    rw [hi] at h
    cases hj : st[j]? with
    | none => rw [hj] at h; exact absurd h (by simp)
    | some b => rw [hj] at h; exact absurd h (by simp)
  | some a =>
    rw [hi] at h
    cases hj : st[j]? with
    | none => rw [hj] at h; exact absurd h (by simp)
    | some b =>
      rw [hj] at h
      have h2 : (match ttest_2samp K a b paired dimArg α with
          | Except.error e => Except.error e
          | Except.ok out => Except.ok (st ++ [out], st.length)) = Except.ok (st2, r) := h
      cases hout : ttest_2samp K a b paired dimArg α with
      | error e => rw [hout] at h2; exact absurd h2 (by simp)
      | ok out =>
        rw [hout] at h2
        have hpair := Except.ok.inj h2
        exact ⟨out, (congrArg Prod.fst hpair).symm, (congrArg Prod.snd hpair).symm⟩

theorem runMannwhitney_ok (K : Kernels) (st : List DataArray) (i j : ℕ) (paired : Bool)
    (dimArg : DimArg) (α : ℚ) (st2 : List DataArray) (r : ℕ)
    (h : runMannwhitney K st i j paired dimArg α = .ok (st2, r)) :
    ∃ out, st2 = st ++ [out] ∧ r = st.length := by
  unfold runMannwhitney at h
  cases hi : st[i]? with
  | none =>
    rw [hi] at h
    cases hj : st[j]? with
    | none => rw [hj] at h; exact absurd h (by simp)
    | some b => rw [hj] at h; exact absurd h (by simp)
  | some a =>
    rw [hi] at h
    cases hj : st[j]? with
    | none => rw [hj] at h; exact absurd h (by simp)
    | some b =>
      rw [hj] at h
      have h2 : (match mannwhitney K a b paired dimArg α with
          | Except.error e => Except.error e
          | Except.ok out => Except.ok (st ++ [out], st.length)) = Except.ok (st2, r) := h
      cases hout : mannwhitney K a b paired dimArg α with
      | error e => rw [hout] at h2; exact absurd h2 (by simp)
      | ok out =>
        rw [hout] at h2
        have hpair := Except.ok.inj h2
        exact ⟨out, (congrArg Prod.fst hpair).symm, (congrArg Prod.snd hpair).symm⟩

/-- C9: neither operation mutates its input grids, and the returned grid is
newly allocated.  In the store model, a successful call leaves every
caller-owned array (every store slot below the old length, values and
coordinates included) exactly as it was, and the result reference is the
fresh slot past the old store. -/
theorem C9_inputs_unchanged_output_fresh
    (K : Kernels) (st : List DataArray) (i j : ℕ) (paired : Bool) (dimArg : DimArg)
    (α : ℚ) (st2 : List DataArray) (r : ℕ) :
    (runTtest K st i j paired dimArg α = .ok (st2, r) →
      (∀ k, k < st.length → st2[k]? = st[k]?) ∧ r = st.length ∧
        st2.length = st.length + 1) ∧
    (runMannwhitney K st i j paired dimArg α = .ok (st2, r) →
      (∀ k, k < st.length → st2[k]? = st[k]?) ∧ r = st.length ∧
        st2.length = st.length + 1) := by
  constructor
  · intro h
    obtain ⟨out, hst, hr⟩ := runTtest_ok K st i j paired dimArg α st2 r h
    subst hst
    exact ⟨fun k hk => append_frame st out k hk, hr, by simp⟩
  · intro h
    obtain ⟨out, hst, hr⟩ := runMannwhitney_ok K st i j paired dimArg α st2 r h
    subst hst
    exact ⟨fun k hk => append_frame st out k hk, hr, by simp⟩

theorem C9_witness :
    runTtest constKernels [gridA, gridB] 0 1 false (.str "time") (1 / 20) =
      .ok ([gridA, gridB, outAB], 2) ∧
    ([gridA, gridB, outAB] : List DataArray)[0]? = ([gridA, gridB] : List DataArray)[0]? ∧
    ([gridA, gridB, outAB] : List DataArray)[1]? = ([gridA, gridB] : List DataArray)[1]? ∧
    (2 : ℕ) = ([gridA, gridB] : List DataArray).length ∧
    ([gridA, gridB, outAB] : List DataArray).length =
      ([gridA, gridB] : List DataArray).length + 1 :=
  ⟨by with_unfolding_all rfl,
    ((C9_inputs_unchanged_output_fresh constKernels [gridA, gridB] 0 1 false (.str "time")
        (1 / 20) [gridA, gridB, outAB] 2).1 (by with_unfolding_all rfl)).1 0 (by decide),
    ((C9_inputs_unchanged_output_fresh constKernels [gridA, gridB] 0 1 false (.str "time")
        (1 / 20) [gridA, gridB, outAB] 2).1 (by with_unfolding_all rfl)).1 1 (by decide),
    ((C9_inputs_unchanged_output_fresh constKernels [gridA, gridB] 0 1 false (.str "time")
        (1 / 20) [gridA, gridB, outAB] 2).1 (by with_unfolding_all rfl)).2.1,
    ((C9_inputs_unchanged_output_fresh constKernels [gridA, gridB] 0 1 false (.str "time")
        (1 / 20) [gridA, gridB, outAB] 2).1 (by with_unfolding_all rfl)).2.2⟩

/-- C10 counterexample: the claim says a list-valued `dim` reduces jointly
over every listed dimension and removes all of them from the output.  On
`grid3` (dims lat, x, time) with `dim = ["x", "time"]`, both calls instead
fail with xarray's dimension error — the scipy call reduces only `axis=-1`
(the last listed dimension), so the inner function's output is not scalar
and no output grid exists at all. -/
theorem C10_counterexample_list_dim :
    ttest_2samp constKernels grid3 grid3 false (.list ["x", "time"]) (1 / 20) =
      .error "applied function returned data with unexpected number of dimensions" ∧
    mannwhitney constKernels grid3 grid3 false (.list ["x", "time"]) (1 / 20) =
      .error "applied function returned data with unexpected number of dimensions" :=
  ⟨by with_unfolding_all rfl, by with_unfolding_all rfl⟩

/-- C10 amended: `dim` also accepts a list of dimension names, and a string
`s` is handled identically to the list `[s]` (line 25 / 74 wraps the
string); but the per-cell test reduces only along the last listed
dimension, so only single-element lists behave like the string case — with
two or more listed dimensions the call fails (see the counterexample)
rather than reducing jointly. -/
theorem C10_string_equals_singleton_list
    (K : Kernels) (a b : DataArray) (paired : Bool) (s : String) (α : ℚ) :
    ttest_2samp K a b paired (.str s) α = ttest_2samp K a b paired (.list [s]) α ∧
    mannwhitney K a b paired (.str s) α = mannwhitney K a b paired (.list [s]) α ∧
    normalizeDim (.str s) = normalizeDim (.list [s]) :=
  ⟨rfl, rfl, rfl⟩

end FuncStats
